import Mathlib

/-!
# A verification model of the chromium-render ("proton") service core

This development shallowly embeds the render-scheduling core of the
service:

* `lib/queue.js` (the `EventEmitter`-based `Queue` class): bounded FIFO
  admission (`push`), the advance protocol (`_processQueue`), the two
  per-job timers (`_setUpQueueTimeout`, `_registerProcessTimeout`), the
  cancellation plumbing (`onCancel`, `_tryToCancelWaitingJob`,
  `_tryToCancelInProgressJob`, `_cancelJob`) and the generic cleanup
  (`_cleanup`).
* `lib/renderer.js`: the URL allow-check `_isAllowed`, the `ForbiddenError`
  gate at the top of `articleToPdf`, the per-sub-resource request
  interceptor, and the navigation-response handling.
* the glue layer's `handleError` (routes): mapping of failure kinds to
  HTTP responses.

Modelling conventions:

* The queue's bookkeeping is single-threaded (spec §5): every external
  event (a call to `push`, a timer firing, a promise settling, a
  cancellation) triggers one synchronous bookkeeping step that runs to
  completion, including the settlement continuations (`.finally`
  handlers) it triggers.  Each such step is a pure function
  `QueueState → QueueState × List Event`; the emitted events are returned
  in order.
* Asynchronous continuations (`job.cancel().then(...)`) are split into
  two steps: the invocation (which records the pending continuation) and
  the continuation's execution.
* The submission future (the bluebird promise returned by `push`) is a
  settle-once cell.  `resolve`/`reject` settle it only while pending;
  caller-side `.cancel()` moves a pending cell to `cancelled` and runs the
  registered `onCancel` handler; the rejection the cancellation
  continuation later issues (`reject(new ProcessingCancelled())`,
  queue.js `_cancelJob`) is recorded as the cell's terminal state.
* Job payloads are opaque; jobs are identified by their `jobId`
  (naturals here; the service uses unique UUID strings).  `process()`
  results are abstracted to a natural number.
-/

namespace Proton

/-- Error kinds of `lib/errors.js`. -/
inductive ErrKind
  | queueFull
  | queueTimeout
  | jobTimeout
  | processingCancelled
  | navigationError (httpCode : Nat)
  | puppeteerMalformedResponse
  | forbidden
  | jobNotFound
  | other
  deriving DecidableEq, Repr

/-- Events the queue emits (telemetry stream).  Payloads are reduced to the
job id; `process.timeout` is emitted with no payload in the source
(queue.js `_registerProcessTimeout`). -/
inductive Event
  | queueFull (id : Nat)
  | queueNew (id : Nat)
  | queueTimeout (id : Nat)
  | queueAbort (id : Nat)
  | processStarted (id : Nat)
  | processSuccess (id : Nat)
  | processFailure (id : Nat)
  | processAbort (id : Nat)
  | processTimeout
  deriving DecidableEq, Repr

/-- The two `setTimeout` handles a job can hold in the `_timeouts` map:
the queue-residency timer set by `_setUpQueueTimeout` and the execution
timer set by `_registerProcessTimeout`. -/
inductive TimerKind
  | queue
  | execution
  deriving DecidableEq, Repr

/-- Settlement cell of the bluebird promise returned by `Queue.push`. -/
inductive FutureState
  | pending
  | cancelled
  | resolved (result : Nat)
  | rejected (e : ErrKind)
  deriving DecidableEq, Repr

namespace FutureState

/-- The executor's `resolve` callback: settles only a pending cell. -/
def resolveOp (v : Nat) : FutureState → FutureState
  | pending => resolved v
  | s => s

/-- The executor's `reject` callback: settles only a pending cell. -/
def rejectOp (e : ErrKind) : FutureState → FutureState
  | pending => rejected e
  | s => s

/-- Caller-side `.cancel()` on the promise: a pending cell becomes
cancelled; settled cells are unaffected. -/
def cancelOp : FutureState → FutureState
  | pending => cancelled
  | s => s

/-- The `reject(new ProcessingCancelled())` issued by `_cancelJob` once
`job.cancel()` resolves: records the cancellation outcome on the cell. -/
def cancelRejectOp : FutureState → FutureState
  | pending => rejected ErrKind.processingCancelled
  | cancelled => rejected ErrKind.processingCancelled
  | s => s

end FutureState

/-- Queue configuration (queue.js constructor `queueOptions`). -/
structure QueueOptions where
  concurrency : Nat
  queueTimeout : Nat
  executionTimeout : Nat
  maxTaskCount : Nat
  deriving DecidableEq, Repr

/-- The mutable state of a `Queue` instance, together with the per-job
bookkeeping the embedding needs:

* `waitingJobs`, `inProgressJobs`, `timeouts`, `processing` are the
  fields `_waitingJobs`, `_inProgressJobs`, `_timeouts`, `_processing`.
* `futures` holds the settlement cell of every registered submission
  future (jobs rejected synchronously with `QueueFull` are never
  registered).
* `started` records jobs whose `notifyQueueStart` ran
  (`job.processStartedAt` is set); it is what `_cleanup` branches on.
* `processSettled` records jobs whose `process()` promise has settled
  (each `process()` settles at most once).
* `cancelInvoked` records every invocation of `job.cancel()`.
* `pendingJobTimeoutCancel` holds jobs whose execution timer fired and
  whose `job.cancel()` continuation (`_registerProcessTimeout`) has not
  run yet.
* `pendingAbortCancel` holds jobs removed by the `onCancel` handler whose
  `_cancelJob` continuation has not run yet; the flag is `true` when the
  job was cancelled out of the waiting list (`'queue'` state string) and
  `false` when out of the in-progress list (`'process'`). -/
structure QueueState where
  waitingJobs : List Nat
  inProgressJobs : List Nat
  timeouts : List (Nat × TimerKind)
  futures : List (Nat × FutureState)
  started : List Nat
  processSettled : List Nat
  cancelInvoked : List Nat
  pendingJobTimeoutCancel : List Nat
  pendingAbortCancel : List (Nat × Bool)
  processing : Bool
  deriving DecidableEq, Repr

/-- A freshly constructed queue. -/
def initState : QueueState :=
  ⟨[], [], [], [], [], [], [], [], [], false⟩

/-- `countJobsInQueue`: number of waiting plus in-progress jobs. -/
def countJobsInQueue (s : QueueState) : Nat :=
  s.waitingJobs.length + s.inProgressJobs.length

/-- `countJobsWaiting`. -/
def countJobsWaiting (s : QueueState) : Nat :=
  s.waitingJobs.length

/-- `countJobsInProcessing`. -/
def countJobsInProcessing (s : QueueState) : Nat :=
  s.inProgressJobs.length

/-- `isQueueFull`: whether the number of waiting and running jobs has
reached `maxTaskCount`. -/
def isQueueFull (o : QueueOptions) (s : QueueState) : Bool :=
  decide (o.maxTaskCount ≤ countJobsInQueue s)

/-- `_clearTimeout`: drop the `_timeouts` entry keyed by `j`. -/
def clearT (s : QueueState) (j : Nat) : QueueState :=
  { s with timeouts := s.timeouts.filter (fun p => p.1 ≠ j) }

/-- `this._timeouts.set(j, handle)`: `Map.set` keyed by `j`. -/
def setT (s : QueueState) (j : Nat) (k : TimerKind) : QueueState :=
  { s with timeouts := (j, k) :: s.timeouts.filter (fun p => p.1 ≠ j) }

/-- The settlement cell of job `j`, when registered. -/
def lookupFut (s : QueueState) (j : Nat) : Option FutureState :=
  s.futures.lookup j

/-- Apply a settlement operation to the cell of job `j`. -/
def updateFut (s : QueueState) (j : Nat) (f : FutureState → FutureState) :
    QueueState :=
  { s with futures := s.futures.map (fun p => if p.1 = j then (p.1, f p.2) else p) }

def resolveFut (s : QueueState) (j : Nat) (v : Nat) : QueueState :=
  updateFut s j (FutureState.resolveOp v)

def rejectFut (s : QueueState) (j : Nat) (e : ErrKind) : QueueState :=
  updateFut s j (FutureState.rejectOp e)

def cancelFut (s : QueueState) (j : Nat) : QueueState :=
  updateFut s j FutureState.cancelOp

def cancelRejectFut (s : QueueState) (j : Nat) : QueueState :=
  updateFut s j FutureState.cancelRejectOp

/-- `_removeJobFromArray`: filter out the job with the given id. -/
def removeFromList (j : Nat) (l : List Nat) : List Nat :=
  l.filter (fun i => i ≠ j)

/-- `_removeJobFromInProcessState`. -/
def removeInProc (s : QueueState) (j : Nat) : QueueState :=
  { s with inProgressJobs := removeFromList j s.inProgressJobs }

/-- `_removeJobFromInQueueState`. -/
def removeInQueue (s : QueueState) (j : Nat) : QueueState :=
  { s with waitingJobs := removeFromList j s.waitingJobs }

/-- `_cleanup`: clear the job's timer, then remove it from the
in-progress list if `processStartedAt` is set, otherwise from the
waiting list. -/
def cleanup (s : QueueState) (j : Nat) : QueueState :=
  if j ∈ (clearT s j).started then removeInProc (clearT s j) j
  else removeInQueue (clearT s j) j

/-- `_processQueue`: promote the head of the waiting list to in-progress
when the concurrency budget allows.  The `_processing` reentrance flag is
set and cleared within the same synchronous body, so across a step its
value is unchanged; the guard is kept for fidelity. -/
def processQueue (o : QueueOptions) (s : QueueState) :
    QueueState × List Event :=
  if o.concurrency ≤ s.inProgressJobs.length then (s, [])
  else
    match s.waitingJobs with
    | [] => (s, [])
    | j :: rest =>
      if s.processing then (s, [])
      else
        let s1 : QueueState := { s with waitingJobs := rest }
        let s2 := clearT s1 j
        let s3 : QueueState :=
          { s2 with inProgressJobs := s2.inProgressJobs ++ [j] }
        let s4 := setT s3 j TimerKind.execution
        let s5 : QueueState := { s4 with started := j :: s4.started }
        (s5, [Event.processStarted j])

/-- Result of a call to `Queue.push`: the synchronous `QueueFull`
rejection, or registration of the submission future. -/
inductive PushOutcome
  | rejected (e : ErrKind)
  | registered
  deriving DecidableEq, Repr

/-- The intermediate state of a non-full `push`, before the advance: the
queue timer is set, the job is appended to the waiting list and its
pending future is registered. -/
def pushCore (s : QueueState) (j : Nat) : QueueState :=
  { setT s j TimerKind.queue with
      waitingJobs := s.waitingJobs ++ [j],
      futures := (j, FutureState.pending) :: s.futures }

/-- `Queue.push` (synchronous part): reject with `QueueFull` when the
queue is full, or register the job (queue timer, waiting list, pending
future), emit `queue.new`, and attempt to advance the queue. -/
def push (o : QueueOptions) (s : QueueState) (j : Nat) :
    QueueState × List Event × PushOutcome :=
  if isQueueFull o s then
    (s, [Event.queueFull j], PushOutcome.rejected ErrKind.queueFull)
  else
    ((processQueue o (pushCore s j)).1,
     Event.queueNew j :: (processQueue o (pushCore s j)).2,
     PushOutcome.registered)

/-- The queue-timeout timer firing (`_setUpQueueTimeout` callback):
clear the timer entry, emit `queue.timeout`, reject the submission
future with `QueueTimeout`; the settlement triggers the push promise's
`.finally`, which runs `_cleanup` and `_processQueue`. -/
def queueTimeoutFire (o : QueueOptions) (s : QueueState) (j : Nat) :
    QueueState × List Event :=
  if lookupFut (clearT s j) j = some FutureState.pending then
    ((processQueue o
        (cleanup (rejectFut (clearT s j) j ErrKind.queueTimeout) j)).1,
     Event.queueTimeout j
       :: (processQueue o
            (cleanup (rejectFut (clearT s j) j ErrKind.queueTimeout) j)).2)
  else (rejectFut (clearT s j) j ErrKind.queueTimeout, [Event.queueTimeout j])

/-- The execution-timeout timer firing (`_registerProcessTimeout`
callback): clear the timer entry, emit `process.timeout`, invoke
`job.cancel()` and record its pending continuation. -/
def execTimeoutFire (s : QueueState) (j : Nat) : QueueState × List Event :=
  ({ clearT s j with
      cancelInvoked := j :: s.cancelInvoked,
      pendingJobTimeoutCancel := j :: s.pendingJobTimeoutCancel },
   [Event.processTimeout])

/-- The state after the `_registerProcessTimeout` continuation's own
bookkeeping: the pending marker is consumed and the job removed from the
in-progress list. -/
def etcrCore (s : QueueState) (j : Nat) : QueueState :=
  removeInProc
    { s with pendingJobTimeoutCancel :=
               removeFromList j s.pendingJobTimeoutCancel } j

/-- The `job.cancel().then(...)` continuation of
`_registerProcessTimeout`: remove the job from the in-progress list and
reject the submission future with `JobTimeout`; when that settles the
push promise, its `.finally` runs `_cleanup` and `_processQueue`. -/
def execTimeoutCancelResolved (o : QueueOptions) (s : QueueState) (j : Nat) :
    QueueState × List Event :=
  if lookupFut (etcrCore s j) j = some FutureState.pending then
    ((processQueue o
        (cleanup (rejectFut (etcrCore s j) j ErrKind.jobTimeout) j)).1,
     (processQueue o
        (cleanup (rejectFut (etcrCore s j) j ErrKind.jobTimeout) j)).2)
  else (rejectFut (etcrCore s j) j ErrKind.jobTimeout, [])

/-- Settle the submission future according to the `process()` outcome. -/
def settleFut (s : QueueState) (j : Nat) (res : Except ErrKind Nat) :
    QueueState :=
  match res with
  | Except.ok v => resolveFut s j v
  | Except.error e => rejectFut s j e

/-- The events the `_processJob` settlement handlers emit. -/
def settleEvents (j : Nat) (res : Except ErrKind Nat) : List Event :=
  match res with
  | Except.ok _ => [Event.processSuccess j]
  | Except.error _ => [Event.processFailure j]

/-- The state after `_processJob`'s handlers and its own `.finally`:
settlement recorded, future settled, timer entry cleared, job removed
from the in-progress list. -/
def processSettleCore (s : QueueState) (j : Nat) (res : Except ErrKind Nat) :
    QueueState :=
  removeInProc
    (clearT (settleFut { s with processSettled := j :: s.processSettled } j res)
      j) j

/-- Settlement of `job.process()` (`_processJob` handlers): emit
`process.success`/`process.failure` and resolve/reject the submission
future; the handler chain's own `.finally` clears the timer entry and
removes the job from in-progress; when the settlement settled the push
promise, the push `.finally` runs `_cleanup` and `_processQueue`. -/
def processSettle (o : QueueOptions) (s : QueueState) (j : Nat)
    (res : Except ErrKind Nat) : QueueState × List Event :=
  if lookupFut s j = some FutureState.pending then
    ((processQueue o (cleanup (processSettleCore s j res) j)).1,
     settleEvents j res
       ++ (processQueue o (cleanup (processSettleCore s j res) j)).2)
  else (processSettleCore s j res, settleEvents j res)

/-- Record a `_cancelJob` invocation: `job.cancel()` is called and the
abort continuation (emit, reject) becomes pending. -/
def markCancel (s : QueueState) (j : Nat) (wasWaiting : Bool) : QueueState :=
  { s with cancelInvoked := j :: s.cancelInvoked,
           pendingAbortCancel := (j, wasWaiting) :: s.pendingAbortCancel }

/-- `_tryToCancelWaitingJob`: when the job is in the waiting list, remove
it and start `_cancelJob` with state `'queue'`; report whether it was
found. -/
def tryToCancelWaitingJob (s : QueueState) (j : Nat) : QueueState × Bool :=
  if j ∈ s.waitingJobs then (markCancel (removeInQueue s j) j true, true)
  else (s, false)

/-- `_tryToCancelInProgressJob`: when the job is in the in-progress list,
remove it and start `_cancelJob` with state `'process'`. -/
def tryToCancelInProgressJob (s : QueueState) (j : Nat) : QueueState :=
  if j ∈ s.inProgressJobs then markCancel (removeInProc s j) j false else s

/-- The state after the `onCancel` handler body: the future is marked
cancelled, the timer entry is cleared, and the job is pulled out of the
waiting list or, failing that, the in-progress list. -/
def cancelFireCore (s : QueueState) (j : Nat) : QueueState :=
  if (tryToCancelWaitingJob (clearT (cancelFut s j) j) j).2 then
    (tryToCancelWaitingJob (clearT (cancelFut s j) j) j).1
  else
    tryToCancelInProgressJob
      (tryToCancelWaitingJob (clearT (cancelFut s j) j) j).1 j

/-- Caller-side cancellation of the submission future.  Per bluebird,
`.cancel()` acts only on a pending promise: the cell becomes cancelled,
the registered `onCancel` handler runs (clear the timer, try the waiting
then the in-progress list), and the push promise's `.finally` runs
(`_cleanup`, `_processQueue`).  Cancelling a settled or unregistered
future is a no-op. -/
def cancelFire (o : QueueOptions) (s : QueueState) (j : Nat) :
    QueueState × List Event :=
  match lookupFut s j with
  | some FutureState.pending =>
    ((processQueue o (cleanup (cancelFireCore s j) j)).1,
     (processQueue o (cleanup (cancelFireCore s j) j)).2)
  | _ => (s, [])

/-- The `job.cancel().then(...)` continuation of `_cancelJob`: emit
`queue.abort` or `process.abort` according to the state the job was
cancelled from, and reject the submission future with
`ProcessingCancelled`. -/
def abortCancelResolved (s : QueueState) (j : Nat) :
    QueueState × List Event :=
  match s.pendingAbortCancel.lookup j with
  | some wasWaiting =>
    (cancelRejectFut
       { s with pendingAbortCancel :=
                  s.pendingAbortCancel.filter (fun p => p.1 ≠ j) } j,
     [if wasWaiting then Event.queueAbort j else Event.processAbort j])
  | none => (s, [])

/-- The serialized bookkeeping steps (spec §5): each constructor is one
external event delivered to the queue. -/
inductive QStep
  | push (j : Nat)
  | queueTimeoutFire (j : Nat)
  | execTimeoutFire (j : Nat)
  | execTimeoutCancelResolved (j : Nat)
  | processSettle (j : Nat) (res : Except ErrKind Nat)
  | cancelFire (j : Nat)
  | abortCancelResolved (j : Nat)

/-- Guarded step function: `none` when the event cannot occur (a timer
that is not armed cannot fire, a continuation that is not pending cannot
run, a `jobId` is never reused, `process()` settles at most once). -/
def stepFn (o : QueueOptions) (s : QueueState) : QStep → Option (QueueState × List Event)
  | QStep.push j =>
      if lookupFut s j = none then
        some ((push o s j).1, (push o s j).2.1)
      else none
  | QStep.queueTimeoutFire j =>
      if (j, TimerKind.queue) ∈ s.timeouts then some (queueTimeoutFire o s j)
      else none
  | QStep.execTimeoutFire j =>
      if (j, TimerKind.execution) ∈ s.timeouts then some (execTimeoutFire s j)
      else none
  | QStep.execTimeoutCancelResolved j =>
      if j ∈ s.pendingJobTimeoutCancel then
        some (execTimeoutCancelResolved o s j)
      else none
  | QStep.processSettle j res =>
      if j ∈ s.started ∧ j ∉ s.processSettled then
        some (processSettle o s j res)
      else none
  | QStep.cancelFire j => some (cancelFire o s j)
  | QStep.abortCancelResolved j =>
      if (s.pendingAbortCancel.lookup j).isSome then
        some (abortCancelResolved s j)
      else none

/-- Execute a list of events against the queue; events whose guard fails
are skipped. -/
def runList (o : QueueOptions) (s : QueueState) : List QStep → QueueState
  | [] => s
  | st :: rest =>
    match stepFn o s st with
    | some r => runList o r.1 rest
    | none => runList o s rest

/-- Queue states reachable from a fresh queue. -/
inductive Reaches (o : QueueOptions) : QueueState → Prop
  | init : Reaches o initState
  | step {s s' : QueueState} {st : QStep} {ev : List Event} :
      Reaches o s → stepFn o s st = some (s', ev) → Reaches o s'

/-! ## Basic lemmas about the primitive queue operations -/

theorem mem_removeFromList {i j : Nat} {l : List Nat} :
    i ∈ removeFromList j l ↔ i ∈ l ∧ i ≠ j := by
  simp [removeFromList]

theorem removeFromList_nodup {j : Nat} {l : List Nat} (h : l.Nodup) :
    (removeFromList j l).Nodup :=
  List.Nodup.filter _ h

theorem length_removeFromList_le (j : Nat) (l : List Nat) :
    (removeFromList j l).length ≤ l.length :=
  List.length_filter_le _ l

theorem mem_clearT {i : Nat} {k : TimerKind} {s : QueueState} {j : Nat} :
    (i, k) ∈ (clearT s j).timeouts ↔ (i, k) ∈ s.timeouts ∧ i ≠ j := by
  simp [clearT]

theorem mem_setT {i : Nat} {k : TimerKind} {s : QueueState} {j : Nat}
    {k' : TimerKind} :
    (i, k) ∈ (setT s j k').timeouts
      ↔ (i = j ∧ k = k') ∨ ((i, k) ∈ s.timeouts ∧ i ≠ j) := by
  simp [setT, and_comm]

theorem lookup_mapIf_self (j : Nat) (f : FutureState → FutureState) :
    ∀ l : List (Nat × FutureState),
      (l.map (fun p => if p.1 = j then (p.1, f p.2) else p)).lookup j
        = (l.lookup j).map f
  | [] => rfl
  | (k, v) :: t => by
    simp only [List.map_cons]
    by_cases h : k = j
    · subst h
      simp only [if_pos rfl]
      simp [List.lookup]
    · simp only [if_neg h]
      have hbk : (j == k) = false := by simp [Ne.symm h]
      simp [List.lookup, hbk, lookup_mapIf_self j f t]

theorem lookup_mapIf_ne {i j : Nat} (hij : i ≠ j) (f : FutureState → FutureState) :
    ∀ l : List (Nat × FutureState),
      (l.map (fun p => if p.1 = j then (p.1, f p.2) else p)).lookup i
        = l.lookup i
  | [] => rfl
  | (k, v) :: t => by
    simp only [List.map_cons]
    by_cases h : k = j
    · subst h
      have hbk : (i == k) = false := by simp [hij]
      simp only [if_pos rfl]
      simp [List.lookup, hbk, lookup_mapIf_ne hij f t]
    · simp only [if_neg h]
      by_cases h2 : i = k
      · subst h2
        simp [List.lookup]
      · have hbk : (i == k) = false := by simp [h2]
        simp [List.lookup, hbk, lookup_mapIf_ne hij f t]

theorem lookupFut_updateFut_self (s : QueueState) (j : Nat)
    (f : FutureState → FutureState) :
    lookupFut (updateFut s j f) j = (lookupFut s j).map f :=
  lookup_mapIf_self j f s.futures

theorem lookupFut_updateFut_ne (s : QueueState) {i j : Nat} (hij : i ≠ j)
    (f : FutureState → FutureState) :
    lookupFut (updateFut s j f) i = lookupFut s i :=
  lookup_mapIf_ne hij f s.futures

@[simp] theorem clearT_waiting (s : QueueState) (j : Nat) :
    (clearT s j).waitingJobs = s.waitingJobs := rfl
@[simp] theorem clearT_inProgress (s : QueueState) (j : Nat) :
    (clearT s j).inProgressJobs = s.inProgressJobs := rfl
@[simp] theorem clearT_futures (s : QueueState) (j : Nat) :
    (clearT s j).futures = s.futures := rfl
@[simp] theorem clearT_started (s : QueueState) (j : Nat) :
    (clearT s j).started = s.started := rfl
@[simp] theorem clearT_processSettled (s : QueueState) (j : Nat) :
    (clearT s j).processSettled = s.processSettled := rfl
@[simp] theorem clearT_cancelInvoked (s : QueueState) (j : Nat) :
    (clearT s j).cancelInvoked = s.cancelInvoked := rfl
@[simp] theorem clearT_pjtc (s : QueueState) (j : Nat) :
    (clearT s j).pendingJobTimeoutCancel = s.pendingJobTimeoutCancel := rfl
@[simp] theorem clearT_pac (s : QueueState) (j : Nat) :
    (clearT s j).pendingAbortCancel = s.pendingAbortCancel := rfl
@[simp] theorem clearT_processing (s : QueueState) (j : Nat) :
    (clearT s j).processing = s.processing := rfl

@[simp] theorem setT_waiting (s : QueueState) (j : Nat) (k : TimerKind) :
    (setT s j k).waitingJobs = s.waitingJobs := rfl
@[simp] theorem setT_inProgress (s : QueueState) (j : Nat) (k : TimerKind) :
    (setT s j k).inProgressJobs = s.inProgressJobs := rfl
@[simp] theorem setT_futures (s : QueueState) (j : Nat) (k : TimerKind) :
    (setT s j k).futures = s.futures := rfl
@[simp] theorem setT_started (s : QueueState) (j : Nat) (k : TimerKind) :
    (setT s j k).started = s.started := rfl
@[simp] theorem setT_processSettled (s : QueueState) (j : Nat) (k : TimerKind) :
    (setT s j k).processSettled = s.processSettled := rfl
@[simp] theorem setT_cancelInvoked (s : QueueState) (j : Nat) (k : TimerKind) :
    (setT s j k).cancelInvoked = s.cancelInvoked := rfl
@[simp] theorem setT_pjtc (s : QueueState) (j : Nat) (k : TimerKind) :
    (setT s j k).pendingJobTimeoutCancel = s.pendingJobTimeoutCancel := rfl
@[simp] theorem setT_pac (s : QueueState) (j : Nat) (k : TimerKind) :
    (setT s j k).pendingAbortCancel = s.pendingAbortCancel := rfl
@[simp] theorem setT_processing (s : QueueState) (j : Nat) (k : TimerKind) :
    (setT s j k).processing = s.processing := rfl

@[simp] theorem updateFut_waiting (s : QueueState) (j : Nat) (f) :
    (updateFut s j f).waitingJobs = s.waitingJobs := rfl
@[simp] theorem updateFut_inProgress (s : QueueState) (j : Nat) (f) :
    (updateFut s j f).inProgressJobs = s.inProgressJobs := rfl
@[simp] theorem updateFut_timeouts (s : QueueState) (j : Nat) (f) :
    (updateFut s j f).timeouts = s.timeouts := rfl
@[simp] theorem updateFut_started (s : QueueState) (j : Nat) (f) :
    (updateFut s j f).started = s.started := rfl
@[simp] theorem updateFut_processSettled (s : QueueState) (j : Nat) (f) :
    (updateFut s j f).processSettled = s.processSettled := rfl
@[simp] theorem updateFut_cancelInvoked (s : QueueState) (j : Nat) (f) :
    (updateFut s j f).cancelInvoked = s.cancelInvoked := rfl
@[simp] theorem updateFut_pjtc (s : QueueState) (j : Nat) (f) :
    (updateFut s j f).pendingJobTimeoutCancel = s.pendingJobTimeoutCancel := rfl
@[simp] theorem updateFut_pac (s : QueueState) (j : Nat) (f) :
    (updateFut s j f).pendingAbortCancel = s.pendingAbortCancel := rfl
@[simp] theorem updateFut_processing (s : QueueState) (j : Nat) (f) :
    (updateFut s j f).processing = s.processing := rfl

@[simp] theorem removeInProc_waiting (s : QueueState) (j : Nat) :
    (removeInProc s j).waitingJobs = s.waitingJobs := rfl
@[simp] theorem removeInProc_inProgress (s : QueueState) (j : Nat) :
    (removeInProc s j).inProgressJobs = removeFromList j s.inProgressJobs := rfl
@[simp] theorem removeInProc_timeouts (s : QueueState) (j : Nat) :
    (removeInProc s j).timeouts = s.timeouts := rfl
@[simp] theorem removeInProc_futures (s : QueueState) (j : Nat) :
    (removeInProc s j).futures = s.futures := rfl
@[simp] theorem removeInProc_started (s : QueueState) (j : Nat) :
    (removeInProc s j).started = s.started := rfl
@[simp] theorem removeInProc_processSettled (s : QueueState) (j : Nat) :
    (removeInProc s j).processSettled = s.processSettled := rfl
@[simp] theorem removeInProc_cancelInvoked (s : QueueState) (j : Nat) :
    (removeInProc s j).cancelInvoked = s.cancelInvoked := rfl
@[simp] theorem removeInProc_pjtc (s : QueueState) (j : Nat) :
    (removeInProc s j).pendingJobTimeoutCancel = s.pendingJobTimeoutCancel := rfl
@[simp] theorem removeInProc_pac (s : QueueState) (j : Nat) :
    (removeInProc s j).pendingAbortCancel = s.pendingAbortCancel := rfl
@[simp] theorem removeInProc_processing (s : QueueState) (j : Nat) :
    (removeInProc s j).processing = s.processing := rfl

@[simp] theorem removeInQueue_waiting (s : QueueState) (j : Nat) :
    (removeInQueue s j).waitingJobs = removeFromList j s.waitingJobs := rfl
@[simp] theorem removeInQueue_inProgress (s : QueueState) (j : Nat) :
    (removeInQueue s j).inProgressJobs = s.inProgressJobs := rfl
@[simp] theorem removeInQueue_timeouts (s : QueueState) (j : Nat) :
    (removeInQueue s j).timeouts = s.timeouts := rfl
@[simp] theorem removeInQueue_futures (s : QueueState) (j : Nat) :
    (removeInQueue s j).futures = s.futures := rfl
@[simp] theorem removeInQueue_started (s : QueueState) (j : Nat) :
    (removeInQueue s j).started = s.started := rfl
@[simp] theorem removeInQueue_processSettled (s : QueueState) (j : Nat) :
    (removeInQueue s j).processSettled = s.processSettled := rfl
@[simp] theorem removeInQueue_cancelInvoked (s : QueueState) (j : Nat) :
    (removeInQueue s j).cancelInvoked = s.cancelInvoked := rfl
@[simp] theorem removeInQueue_pjtc (s : QueueState) (j : Nat) :
    (removeInQueue s j).pendingJobTimeoutCancel = s.pendingJobTimeoutCancel := rfl
@[simp] theorem removeInQueue_pac (s : QueueState) (j : Nat) :
    (removeInQueue s j).pendingAbortCancel = s.pendingAbortCancel := rfl
@[simp] theorem removeInQueue_processing (s : QueueState) (j : Nat) :
    (removeInQueue s j).processing = s.processing := rfl

theorem cleanup_waiting (s : QueueState) (j : Nat) :
    (cleanup s j).waitingJobs
      = if j ∈ s.started then s.waitingJobs
        else removeFromList j s.waitingJobs := by
  unfold cleanup
  split <;> simp_all

theorem cleanup_inProgress (s : QueueState) (j : Nat) :
    (cleanup s j).inProgressJobs
      = if j ∈ s.started then removeFromList j s.inProgressJobs
        else s.inProgressJobs := by
  unfold cleanup
  split <;> simp_all

theorem cleanup_timeouts (s : QueueState) (j : Nat) :
    (cleanup s j).timeouts = s.timeouts.filter (fun p => p.1 ≠ j) := by
  unfold cleanup
  split <;> rfl

@[simp] theorem cleanup_futures (s : QueueState) (j : Nat) :
    (cleanup s j).futures = s.futures := by
  unfold cleanup
  split <;> rfl

@[simp] theorem cleanup_started (s : QueueState) (j : Nat) :
    (cleanup s j).started = s.started := by
  unfold cleanup
  split <;> rfl

@[simp] theorem cleanup_processSettled (s : QueueState) (j : Nat) :
    (cleanup s j).processSettled = s.processSettled := by
  unfold cleanup
  split <;> rfl

@[simp] theorem cleanup_cancelInvoked (s : QueueState) (j : Nat) :
    (cleanup s j).cancelInvoked = s.cancelInvoked := by
  unfold cleanup
  split <;> rfl

@[simp] theorem cleanup_pjtc (s : QueueState) (j : Nat) :
    (cleanup s j).pendingJobTimeoutCancel = s.pendingJobTimeoutCancel := by
  unfold cleanup
  split <;> rfl

@[simp] theorem cleanup_pac (s : QueueState) (j : Nat) :
    (cleanup s j).pendingAbortCancel = s.pendingAbortCancel := by
  unfold cleanup
  split <;> rfl

@[simp] theorem cleanup_processing (s : QueueState) (j : Nat) :
    (cleanup s j).processing = s.processing := by
  unfold cleanup
  split <;> rfl

/-- Full characterization of `_processQueue`: either nothing is promoted
and the state is unchanged, or the head of the waiting list is promoted
into the in-progress list with an execution timer and a `notifyQueueStart`,
emitting `process.started`. -/
theorem processQueue_spec (o : QueueOptions) (s : QueueState) :
    (processQueue o s = (s, [])
      ∧ (o.concurrency ≤ s.inProgressJobs.length
          ∨ s.waitingJobs = [] ∨ s.processing = true))
    ∨ (∃ j rest, s.waitingJobs = j :: rest
        ∧ s.inProgressJobs.length < o.concurrency
        ∧ s.processing = false
        ∧ (processQueue o s).1.waitingJobs = rest
        ∧ (processQueue o s).1.inProgressJobs = s.inProgressJobs ++ [j]
        ∧ (processQueue o s).1.timeouts
            = (j, TimerKind.execution) :: s.timeouts.filter (fun p => p.1 ≠ j)
        ∧ (processQueue o s).1.futures = s.futures
        ∧ (processQueue o s).1.started = j :: s.started
        ∧ (processQueue o s).1.processSettled = s.processSettled
        ∧ (processQueue o s).1.cancelInvoked = s.cancelInvoked
        ∧ (processQueue o s).1.pendingJobTimeoutCancel
            = s.pendingJobTimeoutCancel
        ∧ (processQueue o s).1.pendingAbortCancel = s.pendingAbortCancel
        ∧ (processQueue o s).1.processing = s.processing
        ∧ (processQueue o s).2 = [Event.processStarted j]) := by
  unfold processQueue
  by_cases hc : o.concurrency ≤ s.inProgressJobs.length
  · left
    simp [hc]
  · cases hw : s.waitingJobs with
    | nil => left; simp [hc, hw]
    | cons j rest =>
      by_cases hp : s.processing
      · left
        simp [hc, hw, hp]
      · right
        refine ⟨j, rest, rfl, Nat.lt_of_not_le hc, by simp [hp], ?_⟩
        simp [hc, hw, hp, setT, clearT]

/-- The state persisted by `_processQueue` only ever differs from its
input in the promoted job's bookkeeping; the futures are untouched. -/
theorem processQueue_futures (o : QueueOptions) (s : QueueState) :
    (processQueue o s).1.futures = s.futures := by
  rcases processQueue_spec o s with ⟨h, -⟩ | ⟨j, rest, h⟩
  · rw [h]
  · exact h.2.2.2.2.2.2.1

theorem markCancel_fields (s : QueueState) (j : Nat) (b : Bool) :
    (markCancel s j b).waitingJobs = s.waitingJobs
    ∧ (markCancel s j b).inProgressJobs = s.inProgressJobs
    ∧ (markCancel s j b).timeouts = s.timeouts
    ∧ (markCancel s j b).futures = s.futures
    ∧ (markCancel s j b).started = s.started
    ∧ (markCancel s j b).processSettled = s.processSettled
    ∧ (markCancel s j b).cancelInvoked = j :: s.cancelInvoked
    ∧ (markCancel s j b).pendingJobTimeoutCancel = s.pendingJobTimeoutCancel
    ∧ (markCancel s j b).pendingAbortCancel = (j, b) :: s.pendingAbortCancel
    ∧ (markCancel s j b).processing = s.processing :=
  ⟨rfl, rfl, rfl, rfl, rfl, rfl, rfl, rfl, rfl, rfl⟩

theorem tryToCancelWaitingJob_found (s : QueueState) (j : Nat) :
    (tryToCancelWaitingJob s j).2 = true ↔ j ∈ s.waitingJobs := by
  unfold tryToCancelWaitingJob
  split <;> simp_all

theorem tryToCancelWaitingJob_spec (s : QueueState) (j : Nat) :
    (j ∈ s.waitingJobs
      ∧ (tryToCancelWaitingJob s j).1
          = markCancel (removeInQueue s j) j true
      ∧ (tryToCancelWaitingJob s j).2 = true)
    ∨ (j ∉ s.waitingJobs
      ∧ (tryToCancelWaitingJob s j).1 = s
      ∧ (tryToCancelWaitingJob s j).2 = false) := by
  unfold tryToCancelWaitingJob
  split
  · left; simp_all
  · right; simp_all

theorem tryToCancelInProgressJob_spec (s : QueueState) (j : Nat) :
    (j ∈ s.inProgressJobs
      ∧ tryToCancelInProgressJob s j = markCancel (removeInProc s j) j false)
    ∨ (j ∉ s.inProgressJobs ∧ tryToCancelInProgressJob s j = s) := by
  unfold tryToCancelInProgressJob
  split
  · left; simp_all
  · right; simp_all

theorem lookupFut_congr {s s' : QueueState} (h : s'.futures = s.futures)
    (i : Nat) : lookupFut s' i = lookupFut s i := by
  unfold lookupFut
  rw [h]

theorem mem_filterKey {i : Nat} {k : TimerKind} {l : List (Nat × TimerKind)}
    {j : Nat} :
    (i, k) ∈ l.filter (fun p => p.1 ≠ j) ↔ (i, k) ∈ l ∧ i ≠ j := by
  simp

theorem lookup_cons_self {β : Type} {j : Nat} {v : β}
    {l : List (Nat × β)} : List.lookup j ((j, v) :: l) = some v := by
  simp [List.lookup]

theorem lookup_cons_ne {β : Type} {i j : Nat} (h : i ≠ j) {v : β}
    {l : List (Nat × β)} :
    List.lookup i ((j, v) :: l) = List.lookup i l := by
  have hbk : (i == j) = false := by simp [h]
  simp [List.lookup, hbk]

/-- Structural invariants of reachable queue states: the waiting list is
duplicate-free, the concurrency budget bounds the in-progress list, every
waiting or started job has a registered future, no waiting job has
started, an armed queue timer belongs to a waiting job with a pending
future, an armed execution timer belongs to a started job, a pending
`JobTimeout` cancel continuation belongs to a started job, and a pending
abort continuation's job has a cancelled future. -/
structure Inv (o : QueueOptions) (s : QueueState) : Prop where
  nodupW : s.waitingJobs.Nodup
  lenIP : s.inProgressJobs.length ≤ o.concurrency
  wreg : ∀ j ∈ s.waitingJobs, lookupFut s j ≠ none
  sreg : ∀ j ∈ s.started, lookupFut s j ≠ none
  wns : ∀ j ∈ s.waitingJobs, j ∉ s.started
  qtimer : ∀ j, (j, TimerKind.queue) ∈ s.timeouts →
    j ∈ s.waitingJobs ∧ lookupFut s j = some FutureState.pending
  etimer : ∀ j, (j, TimerKind.execution) ∈ s.timeouts → j ∈ s.started
  pjtc : ∀ j ∈ s.pendingJobTimeoutCancel, j ∈ s.started
  pacFut : ∀ p ∈ s.pendingAbortCancel,
    lookupFut s p.1 = some FutureState.cancelled

theorem inv_init (o : QueueOptions) : Inv o initState := by
  refine ⟨?_, ?_, ?_, ?_, ?_, ?_, ?_, ?_, ?_⟩ <;> simp [initState, lookupFut]

theorem inv_clearT {o : QueueOptions} {s : QueueState} (h : Inv o s)
    (j : Nat) : Inv o (clearT s j) := by
  refine ⟨h.nodupW, h.lenIP, ?_, ?_, h.wns, ?_, ?_, h.pjtc, ?_⟩
  · intro i hi
    exact h.wreg i hi
  · intro i hi
    exact h.sreg i hi
  · intro i hi
    rw [mem_clearT] at hi
    exact h.qtimer i hi.1
  · intro i hi
    rw [mem_clearT] at hi
    exact h.etimer i hi.1
  · intro p hp
    exact h.pacFut p hp

/-- A settlement operation on a registered cell preserves the
invariants, provided the job holds no armed queue timer and, when the
job still has a pending abort continuation, the operation fixes
cancelled cells. -/
theorem inv_updateFut {o : QueueOptions} {s : QueueState} (h : Inv o s)
    {j : Nat} {f : FutureState → FutureState}
    (hqt : (j, TimerKind.queue) ∉ s.timeouts)
    (hcanc : ∀ p ∈ s.pendingAbortCancel, p.1 = j →
      f FutureState.cancelled = FutureState.cancelled) :
    Inv o (updateFut s j f) := by
  have hlk : ∀ i, i ≠ j → lookupFut (updateFut s j f) i = lookupFut s i :=
    fun i hi => lookupFut_updateFut_ne s hi f
  have hlkj : lookupFut (updateFut s j f) j = (lookupFut s j).map f :=
    lookupFut_updateFut_self s j f
  refine ⟨h.nodupW, h.lenIP, ?_, ?_, h.wns, ?_, h.etimer, h.pjtc, ?_⟩
  · intro i hi
    by_cases hij : i = j
    · subst hij
      rw [hlkj]
      intro hc
      exact h.wreg i hi (Option.map_eq_none.mp hc)
    · rw [hlk i hij]
      exact h.wreg i hi
  · intro i hi
    by_cases hij : i = j
    · subst hij
      rw [hlkj]
      intro hc
      exact h.sreg i hi (Option.map_eq_none.mp hc)
    · rw [hlk i hij]
      exact h.sreg i hi
  · intro i hi
    rcases h.qtimer i hi with ⟨hw, hp⟩
    refine ⟨hw, ?_⟩
    by_cases hij : i = j
    · subst hij
      exact absurd hi hqt
    · rw [hlk i hij]
      exact hp
  · intro p hp
    by_cases hij : p.1 = j
    · rw [hij, hlkj]
      have hc := h.pacFut p hp
      rw [hij] at hc
      rw [hc]
      simp [hcanc p hp hij]
    · rw [hlk p.1 hij]
      exact h.pacFut p hp

theorem inv_rejectFut {o : QueueOptions} {s : QueueState} (h : Inv o s)
    {j : Nat} (hqt : (j, TimerKind.queue) ∉ s.timeouts) (e : ErrKind) :
    Inv o (rejectFut s j e) :=
  inv_updateFut h hqt (fun _ _ _ => rfl)

theorem inv_resolveFut {o : QueueOptions} {s : QueueState} (h : Inv o s)
    {j : Nat} (hqt : (j, TimerKind.queue) ∉ s.timeouts) (v : Nat) :
    Inv o (resolveFut s j v) :=
  inv_updateFut h hqt (fun _ _ _ => rfl)

theorem inv_cancelFut {o : QueueOptions} {s : QueueState} (h : Inv o s)
    {j : Nat} (hqt : (j, TimerKind.queue) ∉ s.timeouts) :
    Inv o (cancelFut s j) :=
  inv_updateFut h hqt (fun _ _ _ => rfl)

theorem inv_settleFut {o : QueueOptions} {s : QueueState} (h : Inv o s)
    {j : Nat} (hqt : (j, TimerKind.queue) ∉ s.timeouts)
    (res : Except ErrKind Nat) : Inv o (settleFut s j res) := by
  cases res with
  | ok v => exact inv_resolveFut h hqt v
  | error e => exact inv_rejectFut h hqt e

theorem inv_cancelRejectFut {o : QueueOptions} {s : QueueState}
    (h : Inv o s) {j : Nat} (hqt : (j, TimerKind.queue) ∉ s.timeouts)
    (hpac : ∀ p ∈ s.pendingAbortCancel, p.1 ≠ j) :
    Inv o (cancelRejectFut s j) :=
  inv_updateFut h hqt (fun p hp hj => absurd hj (hpac p hp))

theorem inv_removeInProc {o : QueueOptions} {s : QueueState} (h : Inv o s)
    (j : Nat) : Inv o (removeInProc s j) := by
  refine ⟨h.nodupW, le_trans (length_removeFromList_le j _) h.lenIP,
    h.wreg, h.sreg, h.wns, h.qtimer, h.etimer, h.pjtc, h.pacFut⟩

theorem inv_removeInQueue {o : QueueOptions} {s : QueueState} (h : Inv o s)
    {j : Nat} (hqt : (j, TimerKind.queue) ∉ s.timeouts) :
    Inv o (removeInQueue s j) := by
  refine ⟨removeFromList_nodup h.nodupW, h.lenIP, ?_, h.sreg, ?_, ?_,
    h.etimer, h.pjtc, h.pacFut⟩
  · intro i hi
    rw [removeInQueue_waiting, mem_removeFromList] at hi
    exact h.wreg i hi.1
  · intro i hi
    rw [removeInQueue_waiting, mem_removeFromList] at hi
    exact h.wns i hi.1
  · intro i hi
    rcases h.qtimer i hi with ⟨hw, hp⟩
    refine ⟨?_, hp⟩
    rw [removeInQueue_waiting, mem_removeFromList]
    refine ⟨hw, ?_⟩
    rintro rfl
    exact hqt hi

theorem inv_cleanup {o : QueueOptions} {s : QueueState} (h : Inv o s)
    (j : Nat) : Inv o (cleanup s j) := by
  have hqt : (j, TimerKind.queue) ∉ (clearT s j).timeouts := by
    rw [mem_clearT]
    rintro ⟨-, hne⟩
    exact hne rfl
  unfold cleanup
  split
  · exact inv_removeInProc (inv_clearT h j) j
  · exact inv_removeInQueue (inv_clearT h j) hqt

theorem inv_processQueue {o : QueueOptions} {s : QueueState} (h : Inv o s) :
    Inv o (processQueue o s).1 := by
  rcases processQueue_spec o s with ⟨heq, -⟩ |
    ⟨j, rest, hw, hlt, hpr, fw, fip, ft, ffut, fst, fps, fci, fpj, fpac,
      fproc, fev⟩
  · rw [heq]
    exact h
  · have hflk : ∀ i, lookupFut (processQueue o s).1 i = lookupFut s i :=
      lookupFut_congr ffut
    have hnod := h.nodupW
    rw [hw, List.nodup_cons] at hnod
    refine ⟨?_, ?_, ?_, ?_, ?_, ?_, ?_, ?_, ?_⟩
    · rw [fw]
      exact hnod.2
    · rw [fip, List.length_append]
      simp
      omega
    · intro i hi
      rw [fw] at hi
      rw [hflk]
      exact h.wreg i (by rw [hw]; exact List.mem_cons_of_mem _ hi)
    · intro i hi
      rw [fst] at hi
      rw [hflk]
      rcases List.mem_cons.mp hi with rfl | hi
      · exact h.wreg i (by rw [hw]; exact List.mem_cons_self _ _)
      · exact h.sreg i hi
    · intro i hi
      rw [fw] at hi
      rw [fst]
      intro hcon
      rcases List.mem_cons.mp hcon with rfl | hmem
      · exact hnod.1 hi
      · exact h.wns i (by rw [hw]; exact List.mem_cons_of_mem _ hi) hmem
    · intro i hi
      rw [ft] at hi
      rcases List.mem_cons.mp hi with heq | hmem
      · simp at heq
      · rw [mem_filterKey] at hmem
        rcases h.qtimer i hmem.1 with ⟨hiw, hip⟩
        rw [hw] at hiw
        rcases List.mem_cons.mp hiw with rfl | hiw
        · exact absurd rfl hmem.2
        · exact ⟨by rw [fw]; exact hiw, by rw [hflk]; exact hip⟩
    · intro i hi
      rw [ft] at hi
      rw [fst]
      rcases List.mem_cons.mp hi with heq | hmem
      · injection heq with h1 h2
        subst h1
        exact List.mem_cons_self _ _
      · rw [mem_filterKey] at hmem
        exact List.mem_cons_of_mem _ (h.etimer i hmem.1)
    · intro i hi
      rw [fpj] at hi
      rw [fst]
      exact List.mem_cons_of_mem _ (h.pjtc i hi)
    · intro p hp
      rw [fpac] at hp
      rw [hflk]
      exact h.pacFut p hp

theorem mem_of_lookup_eq_some {j : Nat} {b : Bool} :
    ∀ {l : List (Nat × Bool)}, l.lookup j = some b → (j, b) ∈ l
  | [], h => by cases h
  | (k, v) :: t, h => by
    by_cases hk : j = k
    · subst hk
      have : some v = some b := by simpa [List.lookup] using h
      injection this with hvb
      subst hvb
      exact List.mem_cons_self _ _
    · have hbk : (j == k) = false := by simp [hk]
      have ht : List.lookup j t = some b := by simpa [List.lookup, hbk] using h
      exact List.mem_cons_of_mem _ (mem_of_lookup_eq_some ht)

theorem inv_pushCore {o : QueueOptions} {s : QueueState} (h : Inv o s)
    {j : Nat} (hfresh : lookupFut s j = none) : Inv o (pushCore s j) := by
  have hjw : j ∉ s.waitingJobs := fun hm => h.wreg j hm hfresh
  have hjs : j ∉ s.started := fun hm => h.sreg j hm hfresh
  have hlkc : ∀ i, lookupFut (pushCore s j) i
      = if i = j then some FutureState.pending else lookupFut s i := by
    intro i
    by_cases hij : i = j
    · subst hij
      simp [pushCore, lookupFut, lookup_cons_self]
    · simp [pushCore, lookupFut, lookup_cons_ne hij, hij]
  have hwj : (pushCore s j).waitingJobs = s.waitingJobs ++ [j] := rfl
  refine ⟨?_, h.lenIP, ?_, ?_, ?_, ?_, ?_, h.pjtc, ?_⟩
  · rw [hwj]
    simp [List.nodup_append, h.nodupW]
    exact hjw
  · intro i hi
    rw [hwj, List.mem_append] at hi
    rw [hlkc]
    rcases hi with hi | hi
    · by_cases hij : i = j
      · simp [hij]
      · simp only [if_neg hij]
        exact h.wreg i hi
    · simp at hi
      simp [hi]
  · intro i hi
    rw [hlkc]
    have hij : i ≠ j := fun he => hjs (he ▸ hi)
    simp only [if_neg hij]
    exact h.sreg i hi
  · intro i hi
    rw [hwj, List.mem_append] at hi
    rcases hi with hi | hi
    · exact h.wns i hi
    · simp at hi
      subst hi
      exact hjs
  · intro i hi
    have hi' : (i, TimerKind.queue) ∈ (setT s j TimerKind.queue).timeouts := hi
    rw [mem_setT] at hi'
    rcases hi' with ⟨rfl, -⟩ | ⟨hmem, hne⟩
    · refine ⟨by rw [hwj]; simp, by rw [hlkc]; simp⟩
    · rcases h.qtimer i hmem with ⟨hw, hp⟩
      refine ⟨by rw [hwj]; exact List.mem_append_left _ hw, ?_⟩
      rw [hlkc]
      simp only [if_neg hne]
      exact hp
  · intro i hi
    have hi' : (i, TimerKind.execution) ∈ (setT s j TimerKind.queue).timeouts := hi
    rw [mem_setT] at hi'
    rcases hi' with ⟨-, hk⟩ | ⟨hmem, -⟩
    · cases hk
    · exact h.etimer i hmem
  · intro p hp
    have hne : p.1 ≠ j := by
      intro he
      have := h.pacFut p hp
      rw [he, hfresh] at this
      cases this
    rw [hlkc]
    simp only [if_neg hne]
    exact h.pacFut p hp

theorem inv_push {o : QueueOptions} {s : QueueState} (h : Inv o s)
    {j : Nat} (hfresh : lookupFut s j = none) : Inv o (push o s j).1 := by
  unfold push
  by_cases hf : isQueueFull o s = true
  · rw [if_pos hf]
    exact h
  · rw [if_neg hf]
    exact inv_processQueue (inv_pushCore h hfresh)

theorem inv_queueTimeoutFire {o : QueueOptions} {s : QueueState}
    (h : Inv o s) (j : Nat) : Inv o (queueTimeoutFire o s j).1 := by
  have hqt : (j, TimerKind.queue) ∉ (clearT s j).timeouts := by
    rw [mem_clearT]
    rintro ⟨-, hne⟩
    exact hne rfl
  have h2 : Inv o (rejectFut (clearT s j) j ErrKind.queueTimeout) :=
    inv_rejectFut (inv_clearT h j) hqt _
  unfold queueTimeoutFire
  split
  · exact inv_processQueue (inv_cleanup h2 j)
  · exact h2

theorem inv_execTimeoutFire {o : QueueOptions} {s : QueueState} {j : Nat}
    (h : Inv o s) (hg : (j, TimerKind.execution) ∈ s.timeouts) :
    Inv o (execTimeoutFire s j).1 := by
  have hjs : j ∈ s.started := h.etimer j hg
  have h1 : Inv o (clearT s j) := inv_clearT h j
  refine ⟨h1.nodupW, h1.lenIP, h1.wreg, h1.sreg, h1.wns, h1.qtimer,
    h1.etimer, ?_, h1.pacFut⟩
  intro i hi
  have hi' : i ∈ j :: s.pendingJobTimeoutCancel := hi
  rcases List.mem_cons.mp hi' with rfl | hmem
  · exact hjs
  · exact h.pjtc i hmem

theorem inv_etcrCore {o : QueueOptions} {s : QueueState} (h : Inv o s)
    (j : Nat) : Inv o (etcrCore s j) := by
  have h1 : Inv o { s with pendingJobTimeoutCancel := removeFromList j s.pendingJobTimeoutCancel } := by
    refine ⟨h.nodupW, h.lenIP, h.wreg, h.sreg, h.wns, h.qtimer, h.etimer,
      ?_, h.pacFut⟩
    intro i hi
    have hi' : i ∈ removeFromList j s.pendingJobTimeoutCancel := hi
    rw [mem_removeFromList] at hi'
    exact h.pjtc i hi'.1
  exact inv_removeInProc h1 j

theorem inv_execTimeoutCancelResolved {o : QueueOptions} {s : QueueState}
    {j : Nat} (h : Inv o s) (hg : j ∈ s.pendingJobTimeoutCancel) :
    Inv o (execTimeoutCancelResolved o s j).1 := by
  have hjs : j ∈ s.started := h.pjtc j hg
  have hqt : (j, TimerKind.queue) ∉ (etcrCore s j).timeouts := by
    intro hmem
    have hmem' : (j, TimerKind.queue) ∈ s.timeouts := hmem
    exact h.wns j (h.qtimer j hmem').1 hjs
  have h2 : Inv o (rejectFut (etcrCore s j) j ErrKind.jobTimeout) :=
    inv_rejectFut (inv_etcrCore h j) hqt _
  unfold execTimeoutCancelResolved
  split
  · exact inv_processQueue (inv_cleanup h2 j)
  · exact h2

theorem inv_processSettleCore {o : QueueOptions} {s : QueueState} {j : Nat}
    (h : Inv o s) (hg : j ∈ s.started) (res : Except ErrKind Nat) :
    Inv o (processSettleCore s j res) := by
  have h0 : Inv o { s with processSettled := j :: s.processSettled } :=
    ⟨h.nodupW, h.lenIP, h.wreg, h.sreg, h.wns, h.qtimer, h.etimer, h.pjtc,
      h.pacFut⟩
  have hqt : (j, TimerKind.queue)
      ∉ ({ s with processSettled := j :: s.processSettled } : QueueState).timeouts := by
    intro hmem
    have hmem' : (j, TimerKind.queue) ∈ s.timeouts := hmem
    exact h.wns j (h.qtimer j hmem').1 hg
  exact inv_removeInProc (inv_clearT (inv_settleFut h0 hqt res) j) j

theorem inv_processSettle {o : QueueOptions} {s : QueueState} {j : Nat}
    (h : Inv o s) (hg : j ∈ s.started) (res : Except ErrKind Nat) :
    Inv o (processSettle o s j res).1 := by
  unfold processSettle
  split
  · exact inv_processQueue (inv_cleanup (inv_processSettleCore h hg res) j)
  · exact inv_processSettleCore h hg res

theorem inv_markCancel {o : QueueOptions} {s : QueueState} {j : Nat}
    (h : Inv o s) (hc : lookupFut s j = some FutureState.cancelled)
    (b : Bool) : Inv o (markCancel s j b) := by
  refine ⟨h.nodupW, h.lenIP, h.wreg, h.sreg, h.wns, h.qtimer, h.etimer,
    h.pjtc, ?_⟩
  intro p hp
  have hp' : p ∈ (j, b) :: s.pendingAbortCancel := hp
  rcases List.mem_cons.mp hp' with rfl | hmem
  · exact hc
  · exact h.pacFut p hmem

theorem inv_cancelFireCore {o : QueueOptions} {s : QueueState} {j : Nat}
    (h : Inv o s) (hp : lookupFut s j = some FutureState.pending) :
    Inv o (cancelFireCore s j) := by
  have hqt0 : (j, TimerKind.queue) ∉ (clearT s j).timeouts := by
    rw [mem_clearT]
    rintro ⟨-, hne⟩
    exact hne rfl
  have hcomm : clearT (cancelFut s j) j = cancelFut (clearT s j) j := rfl
  have h1 : Inv o (clearT (cancelFut s j) j) := by
    rw [hcomm]
    exact inv_cancelFut (inv_clearT h j) hqt0
  have hc : lookupFut (clearT (cancelFut s j) j) j
      = some FutureState.cancelled := by
    have : lookupFut (cancelFut s j) j = some FutureState.cancelled := by
      unfold cancelFut
      rw [lookupFut_updateFut_self, hp]
      rfl
    exact this
  have hqt1 : (j, TimerKind.queue) ∉ (clearT (cancelFut s j) j).timeouts := by
    rw [mem_clearT]
    rintro ⟨-, hne⟩
    exact hne rfl
  unfold cancelFireCore
  rcases tryToCancelWaitingJob_spec (clearT (cancelFut s j) j) j with
    ⟨hin, heq, hfound⟩ | ⟨hnin, heq, hfound⟩
  · rw [hfound, if_pos rfl, heq]
    exact inv_markCancel (inv_removeInQueue h1 hqt1) hc true
  · rw [hfound]
    simp only [Bool.false_eq_true, if_false]
    rw [heq]
    rcases tryToCancelInProgressJob_spec (clearT (cancelFut s j) j) j with
      ⟨hin2, heq2⟩ | ⟨hnin2, heq2⟩
    · rw [heq2]
      exact inv_markCancel (inv_removeInProc h1 j) hc false
    · rw [heq2]
      exact h1

theorem inv_cancelFire {o : QueueOptions} {s : QueueState} (h : Inv o s)
    (j : Nat) : Inv o (cancelFire o s j).1 := by
  unfold cancelFire
  split
  · next hp => exact inv_processQueue (inv_cleanup (inv_cancelFireCore h hp) j)
  · exact h

theorem inv_abortCancelResolved {o : QueueOptions} {s : QueueState}
    (h : Inv o s) (j : Nat) : Inv o (abortCancelResolved s j).1 := by
  unfold abortCancelResolved
  split
  · next b heq =>
    have hcj : lookupFut s j = some FutureState.cancelled :=
      h.pacFut (j, b) (mem_of_lookup_eq_some heq)
    have h1 : Inv o { s with pendingAbortCancel :=
        s.pendingAbortCancel.filter (fun p => p.1 ≠ j) } := by
      refine ⟨h.nodupW, h.lenIP, h.wreg, h.sreg, h.wns, h.qtimer, h.etimer,
        h.pjtc, ?_⟩
      intro p hp
      have hp' : p ∈ s.pendingAbortCancel.filter (fun p => p.1 ≠ j) := hp
      rw [List.mem_filter] at hp'
      exact h.pacFut p hp'.1
    have hqt : (j, TimerKind.queue)
        ∉ ({ s with pendingAbortCancel :=
              s.pendingAbortCancel.filter (fun p => p.1 ≠ j) } : QueueState).timeouts := by
      intro hmem
      have hmem' : (j, TimerKind.queue) ∈ s.timeouts := hmem
      have := (h.qtimer j hmem').2
      rw [hcj] at this
      cases this
    have hpac : ∀ p ∈ ({ s with pendingAbortCancel :=
        s.pendingAbortCancel.filter (fun p => p.1 ≠ j) } : QueueState).pendingAbortCancel,
        p.1 ≠ j := by
      intro p hp
      have hp' : p ∈ s.pendingAbortCancel.filter (fun p => p.1 ≠ j) := hp
      rw [List.mem_filter] at hp'
      simpa using hp'.2
    exact inv_cancelRejectFut h1 hqt hpac
  · exact h

/-- Every step of the queue preserves the structural invariants. -/
theorem inv_step {o : QueueOptions} {s : QueueState} {st : QStep}
    {r : QueueState × List Event} (h : Inv o s)
    (hstep : stepFn o s st = some r) : Inv o r.1 := by
  cases st with
  | push j =>
    rw [stepFn] at hstep
    split at hstep
    · next hguard =>
      obtain rfl := (Option.some.inj hstep).symm
      exact inv_push h hguard
    · cases hstep
  | queueTimeoutFire j =>
    rw [stepFn] at hstep
    split at hstep
    · obtain rfl := (Option.some.inj hstep).symm
      exact inv_queueTimeoutFire h j
    · cases hstep
  | execTimeoutFire j =>
    rw [stepFn] at hstep
    split at hstep
    · next hguard =>
      obtain rfl := (Option.some.inj hstep).symm
      exact inv_execTimeoutFire h hguard
    · cases hstep
  | execTimeoutCancelResolved j =>
    rw [stepFn] at hstep
    split at hstep
    · next hguard =>
      obtain rfl := (Option.some.inj hstep).symm
      exact inv_execTimeoutCancelResolved h hguard
    · cases hstep
  | processSettle j res =>
    rw [stepFn] at hstep
    split at hstep
    · next hguard =>
      obtain rfl := (Option.some.inj hstep).symm
      exact inv_processSettle h hguard.1 res
    · cases hstep
  | cancelFire j =>
    rw [stepFn] at hstep
    obtain rfl := (Option.some.inj hstep).symm
    exact inv_cancelFire h j
  | abortCancelResolved j =>
    rw [stepFn] at hstep
    split at hstep
    · obtain rfl := (Option.some.inj hstep).symm
      exact inv_abortCancelResolved h j
    · cases hstep

/-- Every reachable queue state satisfies the structural invariants. -/
theorem reaches_inv {o : QueueOptions} {s : QueueState} (h : Reaches o s) :
    Inv o s := by
  induction h with
  | init => exact inv_init o
  | step hr hstep ih => exact inv_step ih hstep

/-! ## C2: the concurrency cap -/

/-- C2: in every reachable queue state the number of in-progress jobs is
at most the configured concurrency, and with `concurrency = 0` the queue
admits jobs but never promotes any — the in-progress list is always
empty. -/
theorem running_le_concurrency (o : QueueOptions) (s : QueueState)
    (h : Reaches o s) :
    countJobsInProcessing s ≤ o.concurrency
    ∧ (o.concurrency = 0 → s.inProgressJobs = []) := by
  have hi := reaches_inv h
  refine ⟨hi.lenIP, ?_⟩
  intro h0
  have hl := hi.lenIP
  rw [h0, Nat.le_zero] at hl
  exact List.length_eq_zero.mp hl

/-- A `concurrency = 0` queue that has admitted one job: it waits and
nothing runs. -/
def c2Opts : QueueOptions := ⟨0, 5, 5, 3⟩

def c2State : QueueState := (push c2Opts initState 1).1

theorem running_le_concurrency_witness :
    countJobsInProcessing c2State ≤ c2Opts.concurrency
    ∧ (c2Opts.concurrency = 0 → c2State.inProgressJobs = []) :=
  running_le_concurrency c2Opts c2State
    (Reaches.step Reaches.init
      ((by decide : stepFn c2Opts initState (QStep.push 1)
          = some (c2State, [Event.queueNew 1]))))

/-! ## Persistence lemmas: how steps act on memberships and futures -/

theorem processQueue_mem_waiting {o : QueueOptions} {s : QueueState} {i : Nat}
    (h : i ∈ (processQueue o s).1.waitingJobs) : i ∈ s.waitingJobs := by
  rcases processQueue_spec o s with ⟨heq, -⟩ | ⟨j, rest, hw, -, -, fw, hrest⟩
  · rw [heq] at h
    exact h
  · rw [fw] at h
    rw [hw]
    exact List.mem_cons_of_mem j h

theorem processQueue_mem_started {o : QueueOptions} {s : QueueState} {i : Nat}
    (h : i ∈ (processQueue o s).1.started) :
    i ∈ s.started ∨ i ∈ s.waitingJobs := by
  rcases processQueue_spec o s with ⟨heq, -⟩ |
    ⟨j, rest, hw, -, -, fw, fip, ft, ffut, fst, hrest⟩
  · rw [heq] at h
    exact Or.inl h
  · rw [fst] at h
    rcases List.mem_cons.mp h with rfl | hmem
    · right
      rw [hw]
      exact List.mem_cons_self _ _
    · exact Or.inl hmem

theorem processQueue_mem_timeouts {o : QueueOptions} {s : QueueState}
    {i : Nat} {k : TimerKind}
    (h : (i, k) ∈ (processQueue o s).1.timeouts) :
    (i, k) ∈ s.timeouts ∨ (i ∈ s.waitingJobs ∧ k = TimerKind.execution) := by
  rcases processQueue_spec o s with ⟨heq, -⟩ |
    ⟨j, rest, hw, -, -, fw, fip, ft, hrest⟩
  · rw [heq] at h
    exact Or.inl h
  · rw [ft] at h
    rcases List.mem_cons.mp h with heq2 | hmem
    · injection heq2 with h1 h2
      subst h1
      right
      exact ⟨by rw [hw]; exact List.mem_cons_self _ _, h2⟩
    · rw [mem_filterKey] at hmem
      exact Or.inl hmem.1

theorem lookupFut_updateFut_ne_none {s : QueueState} {j i : Nat}
    {f : FutureState → FutureState} (h : lookupFut s i ≠ none) :
    lookupFut (updateFut s j f) i ≠ none := by
  by_cases hij : i = j
  · subst hij
    rw [lookupFut_updateFut_self]
    intro hc
    exact h (Option.map_eq_none.mp hc)
  · rw [lookupFut_updateFut_ne s hij]
    exact h

/-- How each queue step acts on a job's registration, waiting-list
membership and started flag: registration persists, a job outside the
waiting list never re-enters it, and a never-started job outside the
waiting list is never started. -/
theorem step_job_persistence {o : QueueOptions} {s : QueueState} {st : QStep}
    {r : QueueState × List Event} (hstep : stepFn o s st = some r) {i : Nat}
    (hreg : lookupFut s i ≠ none) :
    lookupFut r.1 i ≠ none
    ∧ (i ∉ s.waitingJobs → i ∉ r.1.waitingJobs)
    ∧ (i ∉ s.waitingJobs → i ∉ s.started → i ∉ r.1.started) := by
  cases st with
  | push j =>
    rw [stepFn] at hstep
    split at hstep
    case isTrue hguard =>
      obtain rfl := (Option.some.inj hstep).symm
      have hij : i ≠ j := by
        intro he
        rw [he] at hreg
        exact hreg hguard
      unfold push
      by_cases hf : isQueueFull o s = true
      · rw [if_pos hf]
        exact ⟨hreg, fun hw => hw, fun _ hs => hs⟩
      · rw [if_neg hf]
        have hmemP : ∀ a, a ∈ (pushCore s j).waitingJobs
            → a ∈ s.waitingJobs ∨ a = j := by
          intro a ha
          have ha' : a ∈ s.waitingJobs ++ [j] := ha
          rw [List.mem_append] at ha'
          rcases ha' with ha' | ha'
          · exact Or.inl ha'
          · right
            simpa using ha'
        refine ⟨?_, ?_, ?_⟩
        · have hfe : (processQueue o (pushCore s j)).1.futures
              = (pushCore s j).futures := processQueue_futures o _
          show lookupFut (processQueue o (pushCore s j)).1 i ≠ none
          rw [lookupFut_congr hfe i]
          show List.lookup i ((j, FutureState.pending) :: s.futures) ≠ none
          rw [lookup_cons_ne hij]
          exact hreg
        · intro hw hcon
          have := hmemP i (processQueue_mem_waiting hcon)
          rcases this with hmem | hmem
          · exact hw hmem
          · exact hij hmem
        · intro hw hs hcon
          rcases processQueue_mem_started hcon with hmem | hmem
          · exact hs hmem
          · rcases hmemP i hmem with hmem | hmem
            · exact hw hmem
            · exact hij hmem
    case isFalse => cases hstep
  | queueTimeoutFire j =>
    rw [stepFn] at hstep
    split at hstep
    case isTrue hguard =>
      obtain rfl := (Option.some.inj hstep).symm
      have hcfut : ∀ t : QueueState,
          t.futures = (rejectFut (clearT s j) j ErrKind.queueTimeout).futures
          → lookupFut t i ≠ none := by
        intro t ht
        rw [lookupFut_congr ht i]
        exact lookupFut_updateFut_ne_none hreg
      have hclean : ∀ a, a ∈ (cleanup (rejectFut (clearT s j) j
          ErrKind.queueTimeout) j).waitingJobs → a ∈ s.waitingJobs := by
        intro a ha
        rw [cleanup_waiting] at ha
        split at ha
        · exact ha
        · exact (mem_removeFromList.mp ha).1
      unfold queueTimeoutFire
      split
      · refine ⟨?_, ?_, ?_⟩
        · exact hcfut _ (by rw [processQueue_futures, cleanup_futures])
        · intro hw hcon
          exact hw (hclean i (processQueue_mem_waiting hcon))
        · intro hw hs hcon
          rcases processQueue_mem_started hcon with hmem | hmem
          · rw [cleanup_started] at hmem
            exact hs hmem
          · exact hw (hclean i hmem)
      · exact ⟨hcfut _ rfl, fun hw => hw, fun _ hs => hs⟩
    case isFalse => cases hstep
  | execTimeoutFire j =>
    rw [stepFn] at hstep
    split at hstep
    case isTrue hguard =>
      obtain rfl := (Option.some.inj hstep).symm
      exact ⟨hreg, fun hw => hw, fun _ hs => hs⟩
    case isFalse => cases hstep
  | execTimeoutCancelResolved j =>
    rw [stepFn] at hstep
    split at hstep
    case isTrue hguard =>
      obtain rfl := (Option.some.inj hstep).symm
      have hcfut : ∀ t : QueueState,
          t.futures = (rejectFut (etcrCore s j) j ErrKind.jobTimeout).futures
          → lookupFut t i ≠ none := by
        intro t ht
        rw [lookupFut_congr ht i]
        exact lookupFut_updateFut_ne_none hreg
      have hclean : ∀ a, a ∈ (cleanup (rejectFut (etcrCore s j) j
          ErrKind.jobTimeout) j).waitingJobs → a ∈ s.waitingJobs := by
        intro a ha
        rw [cleanup_waiting] at ha
        split at ha
        · exact ha
        · exact (mem_removeFromList.mp ha).1
      unfold execTimeoutCancelResolved
      split
      · refine ⟨?_, ?_, ?_⟩
        · exact hcfut _ (by rw [processQueue_futures, cleanup_futures])
        · intro hw hcon
          exact hw (hclean i (processQueue_mem_waiting hcon))
        · intro hw hs hcon
          rcases processQueue_mem_started hcon with hmem | hmem
          · rw [cleanup_started] at hmem
            exact hs hmem
          · exact hw (hclean i hmem)
      · exact ⟨hcfut _ rfl, fun hw => hw, fun _ hs => hs⟩
    case isFalse => cases hstep
  | processSettle j res =>
    rw [stepFn] at hstep
    split at hstep
    case isTrue hguard =>
      obtain rfl := (Option.some.inj hstep).symm
      have hfeq : (processSettleCore s j res).futures
          = (settleFut { s with processSettled := j :: s.processSettled } j
              res).futures := rfl
      have hcfut : ∀ t : QueueState,
          t.futures = (processSettleCore s j res).futures
          → lookupFut t i ≠ none := by
        intro t ht
        rw [lookupFut_congr (ht.trans hfeq) i]
        cases res with
        | ok v => exact lookupFut_updateFut_ne_none hreg
        | error e => exact lookupFut_updateFut_ne_none hreg
      have hwq : (processSettleCore s j res).waitingJobs = s.waitingJobs := by
        cases res <;> rfl
      have hsq : (processSettleCore s j res).started = s.started := by
        cases res <;> rfl
      have hclean : ∀ a, a ∈ (cleanup (processSettleCore s j res)
          j).waitingJobs → a ∈ s.waitingJobs := by
        intro a ha
        rw [cleanup_waiting, hwq] at ha
        split at ha
        · exact ha
        · exact (mem_removeFromList.mp ha).1
      unfold processSettle
      split
      · refine ⟨?_, ?_, ?_⟩
        · exact hcfut _ (by rw [processQueue_futures, cleanup_futures])
        · intro hw hcon
          exact hw (hclean i (processQueue_mem_waiting hcon))
        · intro hw hs hcon
          rcases processQueue_mem_started hcon with hmem | hmem
          · rw [cleanup_started, hsq] at hmem
            exact hs hmem
          · exact hw (hclean i hmem)
      · refine ⟨hcfut _ rfl, ?_, ?_⟩
        · intro hw hcon
          rw [hwq] at hcon
          exact hw hcon
        · intro hw hs hcon
          rw [hsq] at hcon
          exact hs hcon
    case isFalse => cases hstep
  | cancelFire j =>
    rw [stepFn] at hstep
    obtain rfl := (Option.some.inj hstep).symm
    unfold cancelFire
    split
    case h_1 hp =>
      have hfeq : (cancelFireCore s j).futures = (cancelFut s j).futures := by
        unfold cancelFireCore
        rcases tryToCancelWaitingJob_spec (clearT (cancelFut s j) j) j with
          ⟨hin, heq, hfound⟩ | ⟨hnin, heq, hfound⟩
        · rw [hfound, if_pos rfl, heq]
          rfl
        · rw [hfound]
          simp only [Bool.false_eq_true, if_false]
          rw [heq]
          rcases tryToCancelInProgressJob_spec (clearT (cancelFut s j) j) j
            with ⟨hin2, heq2⟩ | ⟨hnin2, heq2⟩
          · rw [heq2]
            rfl
          · rw [heq2]
            rfl
      have hwq : ∀ a, a ∈ (cancelFireCore s j).waitingJobs
          → a ∈ s.waitingJobs := by
        intro a ha
        unfold cancelFireCore at ha
        rcases tryToCancelWaitingJob_spec (clearT (cancelFut s j) j) j with
          ⟨hin, heq, hfound⟩ | ⟨hnin, heq, hfound⟩
        · rw [hfound, if_pos rfl, heq] at ha
          have ha' : a ∈ removeFromList j s.waitingJobs := ha
          exact (mem_removeFromList.mp ha').1
        · rw [hfound] at ha
          simp only [Bool.false_eq_true, if_false] at ha
          rw [heq] at ha
          rcases tryToCancelInProgressJob_spec (clearT (cancelFut s j) j) j
            with ⟨hin2, heq2⟩ | ⟨hnin2, heq2⟩
          · rw [heq2] at ha
            exact ha
          · rw [heq2] at ha
            exact ha
      have hsq : (cancelFireCore s j).started = s.started := by
        unfold cancelFireCore
        rcases tryToCancelWaitingJob_spec (clearT (cancelFut s j) j) j with
          ⟨hin, heq, hfound⟩ | ⟨hnin, heq, hfound⟩
        · rw [hfound, if_pos rfl, heq]
          rfl
        · rw [hfound]
          simp only [Bool.false_eq_true, if_false]
          rw [heq]
          rcases tryToCancelInProgressJob_spec (clearT (cancelFut s j) j) j
            with ⟨hin2, heq2⟩ | ⟨hnin2, heq2⟩
          · rw [heq2]
            rfl
          · rw [heq2]
            rfl
      have hclean : ∀ a, a ∈ (cleanup (cancelFireCore s j) j).waitingJobs
          → a ∈ s.waitingJobs := by
        intro a ha
        rw [cleanup_waiting] at ha
        split at ha
        · exact hwq a ha
        · exact hwq a (mem_removeFromList.mp ha).1
      refine ⟨?_, ?_, ?_⟩
      · have hfe : (processQueue o (cleanup (cancelFireCore s j) j)).1.futures
            = (cancelFut s j).futures := by
          rw [processQueue_futures, cleanup_futures, hfeq]
        show lookupFut (processQueue o (cleanup (cancelFireCore s j) j)).1 i
          ≠ none
        rw [lookupFut_congr hfe i]
        exact lookupFut_updateFut_ne_none hreg
      · intro hw hcon
        exact hw (hclean i (processQueue_mem_waiting hcon))
      · intro hw hs hcon
        rcases processQueue_mem_started hcon with hmem | hmem
        · rw [cleanup_started, hsq] at hmem
          exact hs hmem
        · exact hw (hclean i hmem)
    case h_2 =>
      exact ⟨hreg, fun hw => hw, fun _ hs => hs⟩
  | abortCancelResolved j =>
    rw [stepFn] at hstep
    split at hstep
    case isTrue hguard =>
      obtain rfl := (Option.some.inj hstep).symm
      unfold abortCancelResolved
      split
      case h_1 b heq =>
        refine ⟨?_, fun hw => hw, fun _ hs => hs⟩
        show lookupFut (cancelRejectFut _ j) i ≠ none
        exact lookupFut_updateFut_ne_none hreg
      case h_2 => exact ⟨hreg, fun hw => hw, fun _ hs => hs⟩
    case isFalse => cases hstep

theorem lookupFut_eq {s : QueueState} {l : List (Nat × FutureState)}
    (h : s.futures = l) (i : Nat) : lookupFut s i = l.lookup i := by
  unfold lookupFut
  rw [h]

theorem lookupFut_updateFut_keep {s : QueueState} {j i : Nat}
    {f : FutureState → FutureState} {t : FutureState}
    (hft : f t = t) (h : lookupFut s i = some t) :
    lookupFut (updateFut s j f) i = some t := by
  by_cases hij : i = j
  · subst hij
    rw [lookupFut_updateFut_self, h]
    simp [hft]
  · rw [lookupFut_updateFut_ne s hij]
    exact h

theorem cancelFireCore_futures (s : QueueState) (j : Nat) :
    (cancelFireCore s j).futures = (cancelFut s j).futures := by
  unfold cancelFireCore
  rcases tryToCancelWaitingJob_spec (clearT (cancelFut s j) j) j with
    ⟨hin, heq, hfound⟩ | ⟨hnin, heq, hfound⟩
  · rw [hfound, if_pos rfl, heq]
    rfl
  · rw [hfound]
    simp only [Bool.false_eq_true, if_false]
    rw [heq]
    rcases tryToCancelInProgressJob_spec (clearT (cancelFut s j) j) j with
      ⟨hin2, heq2⟩ | ⟨hnin2, heq2⟩
    · rw [heq2]
      rfl
    · rw [heq2]
      rfl

/-- Settled cells are never changed by any queue step, and a cancelled
cell can only turn into the `ProcessingCancelled` rejection issued by the
cancellation continuation. -/
theorem step_future_robust {o : QueueOptions} {s : QueueState} {st : QStep}
    {r : QueueState × List Event} (hstep : stepFn o s st = some r) (i : Nat) :
    (∀ e, lookupFut s i = some (FutureState.rejected e) →
       lookupFut r.1 i = some (FutureState.rejected e))
    ∧ (∀ v, lookupFut s i = some (FutureState.resolved v) →
       lookupFut r.1 i = some (FutureState.resolved v))
    ∧ (lookupFut s i = some FutureState.cancelled →
       lookupFut r.1 i = some FutureState.cancelled
       ∨ lookupFut r.1 i
           = some (FutureState.rejected ErrKind.processingCancelled)) := by
  cases st with
  | push j =>
    rw [stepFn] at hstep
    split at hstep
    case isTrue hguard =>
      obtain rfl := (Option.some.inj hstep).symm
      have hij : ∀ t : FutureState, lookupFut s i = some t → i ≠ j := by
        intro t ht he
        rw [he, hguard] at ht
        cases ht
      unfold push
      by_cases hf : isQueueFull o s = true
      · rw [if_pos hf]
        exact ⟨fun e he => he, fun v hv => hv, fun hc => Or.inl hc⟩
      · rw [if_neg hf]
        have hfe : (processQueue o (pushCore s j)).1.futures
            = (j, FutureState.pending) :: s.futures := by
          rw [processQueue_futures]
          rfl
        refine ⟨?_, ?_, ?_⟩
        · intro e he
          show lookupFut (processQueue o (pushCore s j)).1 i = _
          rw [lookupFut_eq hfe i, lookup_cons_ne (hij _ he)]
          exact he
        · intro v hv
          show lookupFut (processQueue o (pushCore s j)).1 i = _
          rw [lookupFut_eq hfe i, lookup_cons_ne (hij _ hv)]
          exact hv
        · intro hc
          left
          show lookupFut (processQueue o (pushCore s j)).1 i = _
          rw [lookupFut_eq hfe i, lookup_cons_ne (hij _ hc)]
          exact hc
    case isFalse => cases hstep
  | queueTimeoutFire j =>
    rw [stepFn] at hstep
    split at hstep
    case isTrue hguard =>
      obtain rfl := (Option.some.inj hstep).symm
      have hfe : (queueTimeoutFire o s j).1.futures
          = (rejectFut (clearT s j) j ErrKind.queueTimeout).futures := by
        unfold queueTimeoutFire
        split
        · rw [processQueue_futures, cleanup_futures]
        · rfl
      refine ⟨?_, ?_, ?_⟩
      · intro e he
        rw [lookupFut_congr hfe i]
        exact lookupFut_updateFut_keep rfl he
      · intro v hv
        rw [lookupFut_congr hfe i]
        exact lookupFut_updateFut_keep rfl hv
      · intro hc
        left
        rw [lookupFut_congr hfe i]
        exact lookupFut_updateFut_keep rfl hc
    case isFalse => cases hstep
  | execTimeoutFire j =>
    rw [stepFn] at hstep
    split at hstep
    case isTrue hguard =>
      obtain rfl := (Option.some.inj hstep).symm
      exact ⟨fun e he => he, fun v hv => hv, fun hc => Or.inl hc⟩
    case isFalse => cases hstep
  | execTimeoutCancelResolved j =>
    rw [stepFn] at hstep
    split at hstep
    case isTrue hguard =>
      obtain rfl := (Option.some.inj hstep).symm
      have hfe : (execTimeoutCancelResolved o s j).1.futures
          = (rejectFut (etcrCore s j) j ErrKind.jobTimeout).futures := by
        unfold execTimeoutCancelResolved
        split
        · rw [processQueue_futures, cleanup_futures]
        · rfl
      refine ⟨?_, ?_, ?_⟩
      · intro e he
        rw [lookupFut_congr hfe i]
        exact lookupFut_updateFut_keep rfl he
      · intro v hv
        rw [lookupFut_congr hfe i]
        exact lookupFut_updateFut_keep rfl hv
      · intro hc
        left
        rw [lookupFut_congr hfe i]
        exact lookupFut_updateFut_keep rfl hc
    case isFalse => cases hstep
  | processSettle j res =>
    rw [stepFn] at hstep
    split at hstep
    case isTrue hguard =>
      obtain rfl := (Option.some.inj hstep).symm
      have hfe : (processSettle o s j res).1.futures
          = (settleFut { s with processSettled := j :: s.processSettled } j
              res).futures := by
        unfold processSettle
        split
        · rw [processQueue_futures, cleanup_futures]
          rfl
        · rfl
      refine ⟨?_, ?_, ?_⟩
      · intro e he
        rw [lookupFut_congr hfe i]
        cases res with
        | ok v => exact lookupFut_updateFut_keep rfl he
        | error e2 => exact lookupFut_updateFut_keep rfl he
      · intro v hv
        rw [lookupFut_congr hfe i]
        cases res with
        | ok v2 => exact lookupFut_updateFut_keep rfl hv
        | error e2 => exact lookupFut_updateFut_keep rfl hv
      · intro hc
        left
        rw [lookupFut_congr hfe i]
        cases res with
        | ok v2 => exact lookupFut_updateFut_keep rfl hc
        | error e2 => exact lookupFut_updateFut_keep rfl hc
    case isFalse => cases hstep
  | cancelFire j =>
    rw [stepFn] at hstep
    obtain rfl := (Option.some.inj hstep).symm
    unfold cancelFire
    split
    case h_1 hp =>
      have hfe : (processQueue o (cleanup (cancelFireCore s j) j)).1.futures
          = (cancelFut s j).futures := by
        rw [processQueue_futures, cleanup_futures, cancelFireCore_futures]
      refine ⟨?_, ?_, ?_⟩
      · intro e he
        rw [lookupFut_congr hfe i]
        exact lookupFut_updateFut_keep rfl he
      · intro v hv
        rw [lookupFut_congr hfe i]
        exact lookupFut_updateFut_keep rfl hv
      · intro hc
        left
        rw [lookupFut_congr hfe i]
        exact lookupFut_updateFut_keep rfl hc
    case h_2 =>
      exact ⟨fun e he => he, fun v hv => hv, fun hc => Or.inl hc⟩
  | abortCancelResolved j =>
    rw [stepFn] at hstep
    split at hstep
    case isTrue hguard =>
      obtain rfl := (Option.some.inj hstep).symm
      unfold abortCancelResolved
      split
      case h_1 b heq =>
        refine ⟨?_, ?_, ?_⟩
        · intro e he
          exact lookupFut_updateFut_keep rfl he
        · intro v hv
          exact lookupFut_updateFut_keep rfl hv
        · intro hc
          by_cases hij : i = j
          · subst hij
            right
            show lookupFut (updateFut _ i FutureState.cancelRejectOp) i = _
            rw [lookupFut_updateFut_self]
            have hc' : lookupFut { s with pendingAbortCancel :=
                s.pendingAbortCancel.filter (fun p => p.1 ≠ i) } i
                = some FutureState.cancelled := hc
            rw [hc']
            rfl
          · left
            show lookupFut (updateFut _ j FutureState.cancelRejectOp) i = _
            rw [lookupFut_updateFut_ne _ hij]
            exact hc
      case h_2 =>
        exact ⟨fun e he => he, fun v hv => hv, fun hc => Or.inl hc⟩
    case isFalse => cases hstep

theorem processQueue_mem_inProgress {o : QueueOptions} {s : QueueState}
    {i : Nat} (h : i ∈ (processQueue o s).1.inProgressJobs) :
    i ∈ s.inProgressJobs ∨ i ∈ s.waitingJobs := by
  rcases processQueue_spec o s with ⟨heq, -⟩ |
    ⟨j, rest, hw, -, -, fw, fip, hrest⟩
  · rw [heq] at h
    exact Or.inl h
  · rw [fip, List.mem_append] at h
    rcases h with h | h
    · exact Or.inl h
    · right
      rw [hw]
      simp at h
      simp [h]

theorem processQueue_cancelInvoked (o : QueueOptions) (s : QueueState) :
    (processQueue o s).1.cancelInvoked = s.cancelInvoked := by
  rcases processQueue_spec o s with ⟨heq, -⟩ |
    ⟨j, rest, hw, hlt, hpr, fw, fip, ft, ffut, fst, fps, fci, frest⟩
  · rw [heq]
  · exact fci

theorem processQueue_pac (o : QueueOptions) (s : QueueState) :
    (processQueue o s).1.pendingAbortCancel = s.pendingAbortCancel := by
  rcases processQueue_spec o s with ⟨heq, -⟩ |
    ⟨j, rest, hw, hlt, hpr, fw, fip, ft, ffut, fst, fps, fci, fpj, fpac, frest⟩
  · rw [heq]
  · exact fpac

/-- Once a submission future is rejected, it stays rejected with the
same kind across any sequence of queue steps: later settlements are
no-ops. -/
theorem runList_future_rejected {o : QueueOptions} {i : Nat} {e : ErrKind} :
    ∀ (steps : List QStep) (s : QueueState),
      lookupFut s i = some (FutureState.rejected e) →
      lookupFut (runList o s steps) i = some (FutureState.rejected e)
  | [], s, h => h
  | st :: rest, s, h => by
    show lookupFut (match stepFn o s st with
      | some r => runList o r.1 rest
      | none => runList o s rest) i = _
    cases hst : stepFn o s st with
    | some r =>
      exact runList_future_rejected rest r.1 ((step_future_robust hst i).1 e h)
    | none =>
      exact runList_future_rejected rest s h

/-- A cancelled future only ever becomes the `ProcessingCancelled`
rejection; in particular it never resolves. -/
theorem runList_cancelled_evolution {o : QueueOptions} {i : Nat} :
    ∀ (steps : List QStep) (s : QueueState),
      (lookupFut s i = some FutureState.cancelled
        ∨ lookupFut s i
            = some (FutureState.rejected ErrKind.processingCancelled)) →
      (lookupFut (runList o s steps) i = some FutureState.cancelled
        ∨ lookupFut (runList o s steps) i
            = some (FutureState.rejected ErrKind.processingCancelled))
  | [], s, h => h
  | st :: rest, s, h => by
    simp only [runList]
    cases hst : stepFn o s st with
    | some r =>
      refine runList_cancelled_evolution rest r.1 ?_
      rcases h with h | h
      · exact (step_future_robust hst i).2.2 h
      · exact Or.inr ((step_future_robust hst i).1 _ h)
    | none =>
      exact runList_cancelled_evolution rest s h

/-- A registered job that is neither waiting nor started can never be
started by any sequence of queue steps. -/
theorem runList_never_started {o : QueueOptions} {i : Nat} :
    ∀ (steps : List QStep) (s : QueueState),
      lookupFut s i ≠ none → i ∉ s.waitingJobs → i ∉ s.started →
      i ∉ (runList o s steps).started
  | [], s, hreg, hw, hs => hs
  | st :: rest, s, hreg, hw, hs => by
    show i ∉ (match stepFn o s st with
      | some r => runList o r.1 rest
      | none => runList o s rest).started
    cases hst : stepFn o s st with
    | some r =>
      rcases step_job_persistence hst hreg with ⟨h1, h2, h3⟩
      exact runList_never_started rest r.1 h1 (h2 hw) (h3 hw hs)
    | none =>
      exact runList_never_started rest s hreg hw hs

/-! ## C4: queue-timeout protocol -/

/-- C4: when the queue-timeout timer fires for a job that is still
waiting (reachable state, armed queue timer), the queue clears the job's
timer entry, emits `queue.timeout`, and rejects the submission future
with `QueueTimeout`; the job had not been started, and neither this step
nor any later sequence of steps ever starts it — its `process()` is
never invoked. -/
theorem queue_timeout_rejects (o : QueueOptions) (s : QueueState) (j : Nat)
    (hre : Reaches o s) (ht : (j, TimerKind.queue) ∈ s.timeouts) :
    (∀ k, (j, k) ∉ (queueTimeoutFire o s j).1.timeouts)
    ∧ Event.queueTimeout j ∈ (queueTimeoutFire o s j).2
    ∧ lookupFut (queueTimeoutFire o s j).1 j
        = some (FutureState.rejected ErrKind.queueTimeout)
    ∧ j ∉ s.started
    ∧ (∀ steps, j ∉ (runList o (queueTimeoutFire o s j).1 steps).started) := by
  have hi := reaches_inv hre
  obtain ⟨hjw, hp⟩ := hi.qtimer j ht
  have hjs : j ∉ s.started := hi.wns j hjw
  have hcond : lookupFut (clearT s j) j = some FutureState.pending := hp
  have hqf1 : (queueTimeoutFire o s j).1
      = (processQueue o
          (cleanup (rejectFut (clearT s j) j ErrKind.queueTimeout) j)).1 := by
    unfold queueTimeoutFire
    rw [if_pos hcond]
  have hqf2 : (queueTimeoutFire o s j).2
      = Event.queueTimeout j
        :: (processQueue o
             (cleanup (rejectFut (clearT s j) j ErrKind.queueTimeout) j)).2 := by
    unfold queueTimeoutFire
    rw [if_pos hcond]
  have hXs : (rejectFut (clearT s j) j ErrKind.queueTimeout).started
      = s.started := rfl
  have hXw : (rejectFut (clearT s j) j ErrKind.queueTimeout).waitingJobs
      = s.waitingJobs := rfl
  have hAw : (cleanup (rejectFut (clearT s j) j ErrKind.queueTimeout)
        j).waitingJobs = removeFromList j s.waitingJobs := by
    rw [cleanup_waiting, hXs, hXw, if_neg hjs]
  have hfut : lookupFut (queueTimeoutFire o s j).1 j
      = some (FutureState.rejected ErrKind.queueTimeout) := by
    have hfe : (queueTimeoutFire o s j).1.futures
        = (rejectFut (clearT s j) j ErrKind.queueTimeout).futures := by
      rw [hqf1, processQueue_futures, cleanup_futures]
    rw [lookupFut_congr hfe j]
    show lookupFut
      (updateFut (clearT s j) j (FutureState.rejectOp ErrKind.queueTimeout))
      j = _
    rw [lookupFut_updateFut_self, hcond]
    rfl
  have htimers : ∀ k, (j, k) ∉ (queueTimeoutFire o s j).1.timeouts := by
    intro k hkmem
    rw [hqf1] at hkmem
    rcases processQueue_mem_timeouts hkmem with hmem | ⟨hmemw, -⟩
    · rw [cleanup_timeouts, mem_filterKey] at hmem
      exact hmem.2 rfl
    · rw [hAw, mem_removeFromList] at hmemw
      exact hmemw.2 rfl
  have hev : Event.queueTimeout j ∈ (queueTimeoutFire o s j).2 := by
    rw [hqf2]
    exact List.mem_cons_self _ _
  have hregA : lookupFut (queueTimeoutFire o s j).1 j ≠ none := by
    rw [hfut]
    simp
  have hwA : j ∉ (queueTimeoutFire o s j).1.waitingJobs := by
    rw [hqf1]
    intro hcon
    have hmem := processQueue_mem_waiting hcon
    rw [hAw, mem_removeFromList] at hmem
    exact hmem.2 rfl
  have hsA : j ∉ (queueTimeoutFire o s j).1.started := by
    rw [hqf1]
    intro hcon
    rcases processQueue_mem_started hcon with hmem | hmem
    · rw [cleanup_started, hXs] at hmem
      exact hjs hmem
    · rw [hAw, mem_removeFromList] at hmem
      exact hmem.2 rfl
  exact ⟨htimers, hev, hfut, hjs,
    fun steps => runList_never_started steps _ hregA hwA hsA⟩

/-- A `concurrency = 0` queue with one admitted job whose queue timer
then fires: the future is rejected with `QueueTimeout`. -/
def c4Opts : QueueOptions := ⟨0, 50, 50, 2⟩

def c4State : QueueState := (push c4Opts initState 7).1

theorem queue_timeout_rejects_witness :
    (7, TimerKind.queue) ∈ c4State.timeouts
    ∧ lookupFut (queueTimeoutFire c4Opts c4State 7).1 7
        = some (FutureState.rejected ErrKind.queueTimeout) :=
  ⟨by decide,
   (queue_timeout_rejects c4Opts c4State 7
      (Reaches.step Reaches.init
        ((by decide : stepFn c4Opts initState (QStep.push 7)
            = some (c4State, [Event.queueNew 7]))))
      (by decide)).2.2.1⟩

/-! ## C5: execution-timeout protocol -/

/-- C5: when a running job's execution timer fires, the queue clears the
timer entry, emits `process.timeout`, and invokes the job's `cancel()`;
once `cancel` resolves while the future is still pending, the job is
removed from the in-progress list and the future is rejected with
`JobTimeout`; and once rejected, any later settlement of the job's own
`process()` — indeed any later sequence of steps — leaves the rejection
in place: the timeout kind wins. -/
theorem job_timeout_protocol (o : QueueOptions) (s : QueueState) (j : Nat) :
    ((j, TimerKind.execution) ∈ s.timeouts →
      (∀ k, (j, k) ∉ (execTimeoutFire s j).1.timeouts)
      ∧ (execTimeoutFire s j).2 = [Event.processTimeout]
      ∧ j ∈ (execTimeoutFire s j).1.cancelInvoked
      ∧ j ∈ (execTimeoutFire s j).1.pendingJobTimeoutCancel)
    ∧ (Reaches o s → j ∈ s.pendingJobTimeoutCancel →
      lookupFut s j = some FutureState.pending →
      j ∉ (execTimeoutCancelResolved o s j).1.inProgressJobs
      ∧ lookupFut (execTimeoutCancelResolved o s j).1 j
          = some (FutureState.rejected ErrKind.jobTimeout))
    ∧ (∀ e steps, lookupFut s j = some (FutureState.rejected e) →
      lookupFut (runList o s steps) j = some (FutureState.rejected e)) := by
  refine ⟨?_, ?_, ?_⟩
  · intro hg
    have hYt : (execTimeoutFire s j).1.timeouts = (clearT s j).timeouts := rfl
    refine ⟨?_, rfl, ?_, ?_⟩
    · intro k hkmem
      rw [hYt, mem_clearT] at hkmem
      exact hkmem.2 rfl
    · show j ∈ j :: s.cancelInvoked
      exact List.mem_cons_self _ _
    · show j ∈ j :: s.pendingJobTimeoutCancel
      exact List.mem_cons_self _ _
  · intro hre hg hp
    have hi := reaches_inv hre
    have hjs : j ∈ s.started := hi.pjtc j hg
    have hjw : j ∉ s.waitingJobs := fun hw => hi.wns j hw hjs
    have hcond : lookupFut (etcrCore s j) j = some FutureState.pending := hp
    have hqf1 : (execTimeoutCancelResolved o s j).1
        = (processQueue o
            (cleanup (rejectFut (etcrCore s j) j ErrKind.jobTimeout) j)).1 := by
      unfold execTimeoutCancelResolved
      rw [if_pos hcond]
    have hYip : (rejectFut (etcrCore s j) j ErrKind.jobTimeout).inProgressJobs
        = removeFromList j s.inProgressJobs := rfl
    have hYw : (rejectFut (etcrCore s j) j ErrKind.jobTimeout).waitingJobs
        = s.waitingJobs := rfl
    have hAip : ∀ a, a ∈ (cleanup (rejectFut (etcrCore s j) j
        ErrKind.jobTimeout) j).inProgressJobs → a ≠ j := by
      intro a ha
      rw [cleanup_inProgress] at ha
      split at ha
      · exact (mem_removeFromList.mp ha).2
      · rw [hYip] at ha
        exact (mem_removeFromList.mp ha).2
    have hAw : j ∉ (cleanup (rejectFut (etcrCore s j) j
        ErrKind.jobTimeout) j).waitingJobs := by
      rw [cleanup_waiting]
      split
      · rw [hYw]
        exact hjw
      · rw [hYw]
        intro hcon
        exact hjw (mem_removeFromList.mp hcon).1
    refine ⟨?_, ?_⟩
    · rw [hqf1]
      intro hcon
      rcases processQueue_mem_inProgress hcon with hmem | hmem
      · exact hAip j hmem rfl
      · exact hAw hmem
    · have hfe : (execTimeoutCancelResolved o s j).1.futures
          = (rejectFut (etcrCore s j) j ErrKind.jobTimeout).futures := by
        rw [hqf1, processQueue_futures, cleanup_futures]
      rw [lookupFut_congr hfe j]
      show lookupFut
        (updateFut (etcrCore s j) j (FutureState.rejectOp ErrKind.jobTimeout))
        j = _
      rw [lookupFut_updateFut_self, hcond]
      rfl
  · intro e steps h
    exact runList_future_rejected steps s h

/-- A queue with `concurrency = 1` and one job promoted at admission: the
execution timer fires, `cancel` resolves rejecting with `JobTimeout`, and
a later successful settlement of `process()` is a no-op. -/
def c5Opts : QueueOptions := ⟨1, 100, 100, 1⟩

def c5StateA : QueueState := (push c5Opts initState 4).1

def c5StateB : QueueState := (execTimeoutFire c5StateA 4).1

def c5StateC : QueueState := (execTimeoutCancelResolved c5Opts c5StateB 4).1

theorem job_timeout_protocol_witness :
    ((4, TimerKind.execution) ∈ c5StateA.timeouts
      ∧ 4 ∈ c5StateB.cancelInvoked)
    ∧ (4 ∉ c5StateC.inProgressJobs
      ∧ lookupFut c5StateC 4 = some (FutureState.rejected ErrKind.jobTimeout))
    ∧ lookupFut
        (runList c5Opts c5StateC [QStep.processSettle 4 (Except.ok 9)]) 4
        = some (FutureState.rejected ErrKind.jobTimeout) := by
  refine ⟨⟨by decide, ?_⟩, ?_, ?_⟩
  · exact ((job_timeout_protocol c5Opts c5StateA 4).1 (by decide)).2.2.1
  · exact (job_timeout_protocol c5Opts c5StateB 4).2.1
      (Reaches.step
        (Reaches.step Reaches.init
          ((by decide : stepFn c5Opts initState (QStep.push 4)
              = some (c5StateA,
                  [Event.queueNew 4, Event.processStarted 4]))))
        ((by decide : stepFn c5Opts c5StateA (QStep.execTimeoutFire 4)
            = some (c5StateB, [Event.processTimeout]))))
      (by decide) (by decide)
  · exact (job_timeout_protocol c5Opts c5StateC 4).2.2 ErrKind.jobTimeout
      [QStep.processSettle 4 (Except.ok 9)] (by decide)

/-! ## C6: cancellation protocol -/

/-- C6: caller-side cancellation at any lifecycle point.  A pending
waiting item is removed from the waiting list, its `cancel()` is invoked
and the `queue`-state abort continuation is recorded; a pending running
item likewise with the `process`-state continuation; once `cancel`
resolves, the corresponding abort event is emitted and the future is
rejected with `ProcessingCancelled`; cancelling a settled or absent
future is a no-op; and a cancelled future never resolves with a PDF
under any later steps. -/
theorem cancellation_protocol (o : QueueOptions) (s : QueueState) (j : Nat) :
    (lookupFut s j = some FutureState.pending → j ∈ s.waitingJobs →
      j ∉ (cancelFire o s j).1.waitingJobs
      ∧ j ∈ (cancelFire o s j).1.cancelInvoked
      ∧ (cancelFire o s j).1.pendingAbortCancel.lookup j = some true
      ∧ lookupFut (cancelFire o s j).1 j = some FutureState.cancelled)
    ∧ (lookupFut s j = some FutureState.pending → j ∉ s.waitingJobs →
      j ∈ s.inProgressJobs →
      j ∉ (cancelFire o s j).1.inProgressJobs
      ∧ j ∈ (cancelFire o s j).1.cancelInvoked
      ∧ (cancelFire o s j).1.pendingAbortCancel.lookup j = some false
      ∧ lookupFut (cancelFire o s j).1 j = some FutureState.cancelled)
    ∧ (∀ b, s.pendingAbortCancel.lookup j = some b →
      lookupFut s j = some FutureState.cancelled →
      (abortCancelResolved s j).2
          = [if b then Event.queueAbort j else Event.processAbort j]
      ∧ lookupFut (abortCancelResolved s j).1 j
          = some (FutureState.rejected ErrKind.processingCancelled))
    ∧ ((lookupFut s j = none
        ∨ (∃ v, lookupFut s j = some (FutureState.resolved v))
        ∨ (∃ e, lookupFut s j = some (FutureState.rejected e))) →
      cancelFire o s j = (s, []))
    ∧ (lookupFut s j = some FutureState.cancelled →
      ∀ steps v,
        lookupFut (runList o s steps) j ≠ some (FutureState.resolved v)) := by
  refine ⟨?_, ?_, ?_, ?_, ?_⟩
  · intro hp hjw
    have hqf1 : (cancelFire o s j).1
        = (processQueue o (cleanup (cancelFireCore s j) j)).1 := by
      unfold cancelFire
      rw [hp]
    have hjw' : j ∈ (clearT (cancelFut s j) j).waitingJobs := hjw
    rcases tryToCancelWaitingJob_spec (clearT (cancelFut s j) j) j with
      ⟨-, heq, hfound⟩ | ⟨hnin, -, -⟩
    swap
    · exact absurd hjw' hnin
    have hcore : cancelFireCore s j
        = markCancel (removeInQueue (clearT (cancelFut s j) j) j) j true := by
      unfold cancelFireCore
      rw [hfound, if_pos rfl, heq]
    have hcw : (cancelFireCore s j).waitingJobs
        = removeFromList j s.waitingJobs := by
      rw [hcore]
      rfl
    have hci : (cancelFireCore s j).cancelInvoked = j :: s.cancelInvoked := by
      rw [hcore]
      rfl
    have hcpac : (cancelFireCore s j).pendingAbortCancel
        = (j, true) :: s.pendingAbortCancel := by
      rw [hcore]
      rfl
    refine ⟨?_, ?_, ?_, ?_⟩
    · rw [hqf1]
      intro hcon
      have hmem := processQueue_mem_waiting hcon
      rw [cleanup_waiting] at hmem
      split at hmem
      · rw [hcw] at hmem
        exact (mem_removeFromList.mp hmem).2 rfl
      · exact (mem_removeFromList.mp hmem).2 rfl
    · rw [hqf1, processQueue_cancelInvoked, cleanup_cancelInvoked, hci]
      exact List.mem_cons_self _ _
    · rw [hqf1, processQueue_pac, cleanup_pac, hcpac]
      exact lookup_cons_self
    · have hfe : (cancelFire o s j).1.futures = (cancelFut s j).futures := by
        rw [hqf1, processQueue_futures, cleanup_futures, cancelFireCore_futures]
      rw [lookupFut_congr hfe j]
      show lookupFut (updateFut s j FutureState.cancelOp) j = _
      rw [lookupFut_updateFut_self, hp]
      rfl
  · intro hp hjw hjip
    have hqf1 : (cancelFire o s j).1
        = (processQueue o (cleanup (cancelFireCore s j) j)).1 := by
      unfold cancelFire
      rw [hp]
    have hjw' : j ∉ (clearT (cancelFut s j) j).waitingJobs := hjw
    rcases tryToCancelWaitingJob_spec (clearT (cancelFut s j) j) j with
      ⟨hin, -, -⟩ | ⟨-, heq, hfound⟩
    · exact absurd hin hjw'
    have hjip' : j ∈ (clearT (cancelFut s j) j).inProgressJobs := hjip
    rcases tryToCancelInProgressJob_spec (clearT (cancelFut s j) j) j with
      ⟨-, heq2⟩ | ⟨hnin2, -⟩
    swap
    · exact absurd hjip' hnin2
    have hcore : cancelFireCore s j
        = markCancel (removeInProc (clearT (cancelFut s j) j) j) j false := by
      unfold cancelFireCore
      rw [hfound]
      simp only [Bool.false_eq_true, if_false]
      rw [heq, heq2]
    have hcw : (cancelFireCore s j).waitingJobs = s.waitingJobs := by
      rw [hcore]
      rfl
    have hcip : (cancelFireCore s j).inProgressJobs
        = removeFromList j s.inProgressJobs := by
      rw [hcore]
      rfl
    have hci : (cancelFireCore s j).cancelInvoked = j :: s.cancelInvoked := by
      rw [hcore]
      rfl
    have hcpac : (cancelFireCore s j).pendingAbortCancel
        = (j, false) :: s.pendingAbortCancel := by
      rw [hcore]
      rfl
    refine ⟨?_, ?_, ?_, ?_⟩
    · rw [hqf1]
      intro hcon
      rcases processQueue_mem_inProgress hcon with hmem | hmem
      · rw [cleanup_inProgress] at hmem
        split at hmem
        · exact (mem_removeFromList.mp hmem).2 rfl
        · rw [hcip] at hmem
          exact (mem_removeFromList.mp hmem).2 rfl
      · rw [cleanup_waiting] at hmem
        split at hmem
        · rw [hcw] at hmem
          exact hjw hmem
        · rw [hcw] at hmem
          exact hjw (mem_removeFromList.mp hmem).1
    · rw [hqf1, processQueue_cancelInvoked, cleanup_cancelInvoked, hci]
      exact List.mem_cons_self _ _
    · rw [hqf1, processQueue_pac, cleanup_pac, hcpac]
      exact lookup_cons_self
    · have hfe : (cancelFire o s j).1.futures = (cancelFut s j).futures := by
        rw [hqf1, processQueue_futures, cleanup_futures, cancelFireCore_futures]
      rw [lookupFut_congr hfe j]
      show lookupFut (updateFut s j FutureState.cancelOp) j = _
      rw [lookupFut_updateFut_self, hp]
      rfl
  · intro b hlk hc
    have hqa1 : (abortCancelResolved s j).1
        = cancelRejectFut
            { s with pendingAbortCancel :=
                s.pendingAbortCancel.filter (fun p => p.1 ≠ j) } j := by
      unfold abortCancelResolved
      rw [hlk]
    have hqa2 : (abortCancelResolved s j).2
        = [if b then Event.queueAbort j else Event.processAbort j] := by
      unfold abortCancelResolved
      rw [hlk]
    refine ⟨hqa2, ?_⟩
    rw [hqa1]
    show lookupFut (updateFut _ j FutureState.cancelRejectOp) j = _
    rw [lookupFut_updateFut_self]
    have hc' : lookupFut
        { s with pendingAbortCancel :=
            s.pendingAbortCancel.filter (fun p => p.1 ≠ j) } j
        = some FutureState.cancelled := hc
    rw [hc']
    rfl
  · intro hcase
    unfold cancelFire
    rcases hcase with hnone | ⟨v, hres⟩ | ⟨e, hrej⟩
    · rw [hnone]
    · rw [hres]
    · rw [hrej]
  · intro hc steps v hcon
    rcases runList_cancelled_evolution steps s (Or.inl hc) with h1 | h1 <;>
      rw [hcon] at h1 <;> simp at h1

/-- A queue with one running and one waiting job; the waiting job is
cancelled, its `cancel` resolves, and the cancelled future never
resolves; cancelling a never-registered id is a no-op. -/
def c6Opts : QueueOptions := ⟨1, 100, 100, 5⟩

def c6State : QueueState := (push c6Opts (push c6Opts initState 1).1 2).1

def c6StateB : QueueState := (cancelFire c6Opts c6State 2).1

theorem cancellation_protocol_witness :
    (2 ∉ (cancelFire c6Opts c6State 2).1.waitingJobs
      ∧ 2 ∈ (cancelFire c6Opts c6State 2).1.cancelInvoked)
    ∧ 1 ∉ (cancelFire c6Opts c6State 1).1.inProgressJobs
    ∧ lookupFut (abortCancelResolved c6StateB 2).1 2
        = some (FutureState.rejected ErrKind.processingCancelled)
    ∧ cancelFire c6Opts initState 3 = (initState, [])
    ∧ lookupFut (runList c6Opts c6StateB [QStep.abortCancelResolved 2]) 2
        ≠ some (FutureState.resolved 5) := by
  refine ⟨⟨?_, ?_⟩, ?_, ?_, ?_, ?_⟩
  · exact ((cancellation_protocol c6Opts c6State 2).1 (by decide)
      (by decide)).1
  · exact ((cancellation_protocol c6Opts c6State 2).1 (by decide)
      (by decide)).2.1
  · exact ((cancellation_protocol c6Opts c6State 1).2.1 (by decide)
      (by decide) (by decide)).1
  · exact ((cancellation_protocol c6Opts c6StateB 2).2.2.1 true (by decide)
      (by decide)).2
  · exact (cancellation_protocol c6Opts initState 3).2.2.2.1
      (Or.inl (by decide))
  · exact (cancellation_protocol c6Opts c6StateB 2).2.2.2.2 (by decide)
      [QStep.abortCancelResolved 2] 5

/-! ## C3: FIFO promotion order -/

/-- `a` occurs strictly before `b` in the list. -/
def ahead (l : List Nat) (a b : Nat) : Prop :=
  ∃ l₁ l₂ l₃, l = l₁ ++ a :: (l₂ ++ b :: l₃)

theorem ahead_mem_left {l : List Nat} {a b : Nat} (h : ahead l a b) :
    a ∈ l := by
  obtain ⟨l₁, l₂, l₃, rfl⟩ := h
  simp

theorem ahead_mem_right {l : List Nat} {a b : Nat} (h : ahead l a b) :
    b ∈ l := by
  obtain ⟨l₁, l₂, l₃, rfl⟩ := h
  simp

theorem ahead_append_right {l l' : List Nat} {a b : Nat} (h : ahead l a b) :
    ahead (l ++ l') a b := by
  obtain ⟨l₁, l₂, l₃, rfl⟩ := h
  exact ⟨l₁, l₂, l₃ ++ l', by simp⟩

theorem ahead_filter {l : List Nat} {a b : Nat} {p : Nat → Bool}
    (h : ahead l a b) (hpa : p a = true) (hpb : p b = true) :
    ahead (l.filter p) a b := by
  obtain ⟨l₁, l₂, l₃, rfl⟩ := h
  refine ⟨l₁.filter p, l₂.filter p, l₃.filter p, ?_⟩
  simp [List.filter_append, List.filter_cons, hpa, hpb]

theorem ahead_removeFromList {l : List Nat} {a b j : Nat}
    (h : ahead l a b) (hja : a ≠ j) (hjb : b ≠ j) :
    ahead (removeFromList j l) a b :=
  ahead_filter h (by simp [hja]) (by simp [hjb])

theorem ahead_cons_cases {x : Nat} {t : List Nat} {a b : Nat}
    (h : ahead (x :: t) a b) : (x = a ∧ b ∈ t) ∨ ahead t a b := by
  obtain ⟨l₁, l₂, l₃, hdec⟩ := h
  cases l₁ with
  | nil =>
    injection hdec with h1 h2
    left
    refine ⟨h1, ?_⟩
    rw [h2]
    simp
  | cons y l₁' =>
    injection hdec with h1 h2
    right
    exact ⟨l₁', l₂, l₃, h2⟩

theorem ahead_head_ne_b {x : Nat} {t : List Nat} {a b : Nat}
    (h : ahead (x :: t) a b) (hnd : (x :: t).Nodup) (hab : a ≠ b) :
    x ≠ b := by
  rintro rfl
  rcases ahead_cons_cases h with ⟨hxa, -⟩ | haht
  · exact hab hxa.symm
  · have hbt := ahead_mem_right haht
    rw [List.nodup_cons] at hnd
    exact hnd.1 hbt

/-- Effect of the advance protocol on FIFO order: if `a` is ahead of `b`
among the waiting jobs and `b` has not started, then after
`_processQueue` either the order is preserved or it was `a` (the head)
that got promoted; `b` is never the promoted job. -/
theorem fifo_processQueue {o : QueueOptions} {t : QueueState} {a b : Nat}
    (hab : a ≠ b) (hnd : t.waitingJobs.Nodup)
    (hah : ahead t.waitingJobs a b) (hbs : b ∉ t.started) :
    b ∉ (processQueue o t).1.started
    ∧ (ahead (processQueue o t).1.waitingJobs a b
        ∨ a ∈ (processQueue o t).1.started) := by
  rcases processQueue_spec o t with ⟨heq, -⟩ |
    ⟨j, rest, hw, hlt, hpr, fw, fip, ft, ffut, fst, hrest⟩
  · rw [heq]
    exact ⟨hbs, Or.inl hah⟩
  · rw [hw] at hah hnd
    rcases ahead_cons_cases hah with ⟨rfl, hbrest⟩ | haht
    · rw [fst]
      constructor
      · intro hcon
        rcases List.mem_cons.mp hcon with he | hmem
        · exact hab he.symm
        · exact hbs hmem
      · right
        exact List.mem_cons_self _ _
    · have hjb : j ≠ b := ahead_head_ne_b hah hnd hab
      rw [fst, fw]
      constructor
      · intro hcon
        rcases List.mem_cons.mp hcon with he | hmem
        · exact hjb he.symm
        · exact hbs hmem
      · left
        exact haht

/-- A run of queue steps in which neither `a` nor `b` is cancelled while
waiting nor hit by a queue timeout (`a` and `b` neither time out nor are
cancelled while waiting). -/
inductive OkRun (o : QueueOptions) (a b : Nat) :
    QueueState → List QStep → QueueState → Prop
  | nil (s : QueueState) : OkRun o a b s [] s
  | cons {s s' s'' : QueueState} {st : QStep} {steps : List QStep}
      {ev : List Event} :
      stepFn o s st = some (s', ev) →
      (st = QStep.cancelFire a → a ∉ s.waitingJobs) →
      (st = QStep.cancelFire b → b ∉ s.waitingJobs) →
      st ≠ QStep.queueTimeoutFire a →
      st ≠ QStep.queueTimeoutFire b →
      OkRun o a b s' steps s'' →
      OkRun o a b s (st :: steps) s''

/-- One step of a FIFO-respecting run: `b` stays unstarted, and either
`a` is still ahead of `b` among the waiting jobs or `a` has been
promoted. -/
theorem fifo_step {o : QueueOptions} {a b : Nat} {s : QueueState}
    {st : QStep} {r : QueueState × List Event}
    (hstep : stepFn o s st = some r)
    (hca : st = QStep.cancelFire a → a ∉ s.waitingJobs)
    (hcb : st = QStep.cancelFire b → b ∉ s.waitingJobs)
    (hqa : st ≠ QStep.queueTimeoutFire a)
    (hqb : st ≠ QStep.queueTimeoutFire b)
    (hinv : Inv o s) (hab : a ≠ b)
    (hah : ahead s.waitingJobs a b) (hbs : b ∉ s.started) :
    b ∉ r.1.started ∧ (ahead r.1.waitingJobs a b ∨ a ∈ r.1.started) := by
  have hanotst : a ∉ s.started := hinv.wns a (ahead_mem_left hah)
  cases st with
  | push j =>
    rw [stepFn] at hstep
    split at hstep
    case isTrue hguard =>
      obtain rfl := (Option.some.inj hstep).symm
      show b ∉ (push o s j).1.started
        ∧ (ahead (push o s j).1.waitingJobs a b ∨ a ∈ (push o s j).1.started)
      unfold push
      by_cases hf : isQueueFull o s = true
      · rw [if_pos hf]
        exact ⟨hbs, Or.inl hah⟩
      · rw [if_neg hf]
        have hndP : (pushCore s j).waitingJobs.Nodup :=
          (inv_pushCore hinv hguard).nodupW
        have hahP : ahead (pushCore s j).waitingJobs a b := by
          show ahead (s.waitingJobs ++ [j]) a b
          exact ahead_append_right hah
        exact fifo_processQueue hab hndP hahP hbs
    case isFalse => cases hstep
  | queueTimeoutFire j =>
    rw [stepFn] at hstep
    split at hstep
    case isTrue hguard =>
      obtain rfl := (Option.some.inj hstep).symm
      have hja : j ≠ a := fun he => hqa (by rw [he])
      have hjb : j ≠ b := fun he => hqb (by rw [he])
      have hqt : (j, TimerKind.queue) ∉ (clearT s j).timeouts := by
        rw [mem_clearT]
        rintro ⟨-, hne⟩
        exact hne rfl
      show b ∉ (queueTimeoutFire o s j).1.started
        ∧ (ahead (queueTimeoutFire o s j).1.waitingJobs a b
            ∨ a ∈ (queueTimeoutFire o s j).1.started)
      unfold queueTimeoutFire
      split
      · have hndT : (cleanup (rejectFut (clearT s j) j
            ErrKind.queueTimeout) j).waitingJobs.Nodup :=
          (inv_cleanup (inv_rejectFut (inv_clearT hinv j) hqt _) j).nodupW
        have hahT : ahead (cleanup (rejectFut (clearT s j) j
            ErrKind.queueTimeout) j).waitingJobs a b := by
          rw [cleanup_waiting]
          split
          · exact hah
          · exact ahead_removeFromList hah (Ne.symm hja) (Ne.symm hjb)
        have hbsT : b ∉ (cleanup (rejectFut (clearT s j) j
            ErrKind.queueTimeout) j).started := by
          rw [cleanup_started]
          exact hbs
        exact fifo_processQueue hab hndT hahT hbsT
      · exact ⟨hbs, Or.inl hah⟩
    case isFalse => cases hstep
  | execTimeoutFire j =>
    rw [stepFn] at hstep
    split at hstep
    case isTrue hguard =>
      obtain rfl := (Option.some.inj hstep).symm
      exact ⟨hbs, Or.inl hah⟩
    case isFalse => cases hstep
  | execTimeoutCancelResolved j =>
    rw [stepFn] at hstep
    split at hstep
    case isTrue hguard =>
      obtain rfl := (Option.some.inj hstep).symm
      have hjs : j ∈ s.started := hinv.pjtc j hguard
      have hja : j ≠ a := fun he => hanotst (he ▸ hjs)
      have hjb : j ≠ b := fun he => hbs (he ▸ hjs)
      have hqt : (j, TimerKind.queue) ∉ (etcrCore s j).timeouts := by
        intro hmem
        have hmem' : (j, TimerKind.queue) ∈ s.timeouts := hmem
        exact hinv.wns j (hinv.qtimer j hmem').1 hjs
      show b ∉ (execTimeoutCancelResolved o s j).1.started
        ∧ (ahead (execTimeoutCancelResolved o s j).1.waitingJobs a b
            ∨ a ∈ (execTimeoutCancelResolved o s j).1.started)
      unfold execTimeoutCancelResolved
      split
      · have hndT : (cleanup (rejectFut (etcrCore s j) j
            ErrKind.jobTimeout) j).waitingJobs.Nodup :=
          (inv_cleanup (inv_rejectFut (inv_etcrCore hinv j) hqt _) j).nodupW
        have hahT : ahead (cleanup (rejectFut (etcrCore s j) j
            ErrKind.jobTimeout) j).waitingJobs a b := by
          rw [cleanup_waiting]
          split
          · exact hah
          · exact ahead_removeFromList hah (Ne.symm hja) (Ne.symm hjb)
        have hbsT : b ∉ (cleanup (rejectFut (etcrCore s j) j
            ErrKind.jobTimeout) j).started := by
          rw [cleanup_started]
          exact hbs
        exact fifo_processQueue hab hndT hahT hbsT
      · exact ⟨hbs, Or.inl hah⟩
    case isFalse => cases hstep
  | processSettle j res =>
    rw [stepFn] at hstep
    split at hstep
    case isTrue hguard =>
      obtain rfl := (Option.some.inj hstep).symm
      have hjs : j ∈ s.started := hguard.1
      have hja : j ≠ a := fun he => hanotst (he ▸ hjs)
      have hjb : j ≠ b := fun he => hbs (he ▸ hjs)
      have hwq : (processSettleCore s j res).waitingJobs = s.waitingJobs := by
        cases res <;> rfl
      have hsq : (processSettleCore s j res).started = s.started := by
        cases res <;> rfl
      show b ∉ (processSettle o s j res).1.started
        ∧ (ahead (processSettle o s j res).1.waitingJobs a b
            ∨ a ∈ (processSettle o s j res).1.started)
      unfold processSettle
      split
      · have hndT : (cleanup (processSettleCore s j res)
            j).waitingJobs.Nodup :=
          (inv_cleanup (inv_processSettleCore hinv hjs res) j).nodupW
        have hahT : ahead (cleanup (processSettleCore s j res)
            j).waitingJobs a b := by
          rw [cleanup_waiting, hwq]
          split
          · exact hah
          · exact ahead_removeFromList hah (Ne.symm hja) (Ne.symm hjb)
        have hbsT : b ∉ (cleanup (processSettleCore s j res) j).started := by
          rw [cleanup_started, hsq]
          exact hbs
        exact fifo_processQueue hab hndT hahT hbsT
      · show b ∉ (processSettleCore s j res).started
          ∧ (ahead (processSettleCore s j res).waitingJobs a b
              ∨ a ∈ (processSettleCore s j res).started)
        rw [hsq, hwq]
        exact ⟨hbs, Or.inl hah⟩
    case isFalse => cases hstep
  | cancelFire j =>
    rw [stepFn] at hstep
    obtain rfl := (Option.some.inj hstep).symm
    have hja : j ≠ a := by
      rintro rfl
      exact hca rfl (ahead_mem_left hah)
    have hjb : j ≠ b := by
      rintro rfl
      exact hcb rfl (ahead_mem_right hah)
    show b ∉ (cancelFire o s j).1.started
      ∧ (ahead (cancelFire o s j).1.waitingJobs a b
          ∨ a ∈ (cancelFire o s j).1.started)
    unfold cancelFire
    split
    case h_1 hp =>
      have hcw : (cancelFireCore s j).waitingJobs
            = removeFromList j s.waitingJobs
          ∨ (cancelFireCore s j).waitingJobs = s.waitingJobs := by
        unfold cancelFireCore
        rcases tryToCancelWaitingJob_spec (clearT (cancelFut s j) j) j with
          ⟨-, heq, hfound⟩ | ⟨-, heq, hfound⟩
        · rw [hfound, if_pos rfl, heq]
          left
          rfl
        · rw [hfound]
          simp only [Bool.false_eq_true, if_false]
          rw [heq]
          rcases tryToCancelInProgressJob_spec (clearT (cancelFut s j) j) j
            with ⟨-, heq2⟩ | ⟨-, heq2⟩
          · rw [heq2]
            right
            rfl
          · rw [heq2]
            right
            rfl
      have hcs : (cancelFireCore s j).started = s.started := by
        unfold cancelFireCore
        rcases tryToCancelWaitingJob_spec (clearT (cancelFut s j) j) j with
          ⟨-, heq, hfound⟩ | ⟨-, heq, hfound⟩
        · rw [hfound, if_pos rfl, heq]
          rfl
        · rw [hfound]
          simp only [Bool.false_eq_true, if_false]
          rw [heq]
          rcases tryToCancelInProgressJob_spec (clearT (cancelFut s j) j) j
            with ⟨-, heq2⟩ | ⟨-, heq2⟩
          · rw [heq2]
            rfl
          · rw [heq2]
            rfl
      have hahC : ahead (cancelFireCore s j).waitingJobs a b := by
        rcases hcw with hcw | hcw
        · rw [hcw]
          exact ahead_removeFromList hah (Ne.symm hja) (Ne.symm hjb)
        · rw [hcw]
          exact hah
      have hndT : (cleanup (cancelFireCore s j) j).waitingJobs.Nodup :=
        (inv_cleanup (inv_cancelFireCore hinv hp) j).nodupW
      have hahT : ahead (cleanup (cancelFireCore s j) j).waitingJobs a b := by
        rw [cleanup_waiting]
        split
        · exact hahC
        · exact ahead_removeFromList hahC (Ne.symm hja) (Ne.symm hjb)
      have hbsT : b ∉ (cleanup (cancelFireCore s j) j).started := by
        rw [cleanup_started, hcs]
        exact hbs
      exact fifo_processQueue hab hndT hahT hbsT
    case h_2 =>
      exact ⟨hbs, Or.inl hah⟩
  | abortCancelResolved j =>
    rw [stepFn] at hstep
    split at hstep
    case isTrue hguard =>
      obtain rfl := (Option.some.inj hstep).symm
      show b ∉ (abortCancelResolved s j).1.started
        ∧ (ahead (abortCancelResolved s j).1.waitingJobs a b
            ∨ a ∈ (abortCancelResolved s j).1.started)
      unfold abortCancelResolved
      split
      · exact ⟨hbs, Or.inl hah⟩
      · exact ⟨hbs, Or.inl hah⟩
    case isFalse => cases hstep

/-- C3: FIFO promotion order.  Admission appends to the tail of the
waiting list (`push`) and promotion always takes its head
(`_processQueue`, `fifo_processQueue`); consequently, for jobs `a`
admitted strictly before `b` (`a` ahead of `b` in the waiting list, `b`
not yet started), over any run in which neither is cancelled while
waiting nor hit by its queue timeout, if `b` has been started by the end
of the run then the run splits at a point where `a` was already started
and `b` was not: `a` is promoted strictly before `b`. -/
theorem fifo_promotion_order (o : QueueOptions) (a b : Nat)
    (s : QueueState) (steps : List QStep) (sf : QueueState)
    (hre : Reaches o s) (hrun : OkRun o a b s steps sf) (hab : a ≠ b)
    (hah : ahead s.waitingJobs a b) (hbs : b ∉ s.started)
    (hbf : b ∈ sf.started) :
    ∃ u v t, steps = u ++ v ∧ OkRun o a b s u t ∧ OkRun o a b t v sf
      ∧ a ∈ t.started ∧ b ∉ t.started := by
  induction steps generalizing s with
  | nil =>
    cases hrun
    exact absurd hbf hbs
  | cons st rest ih =>
    cases hrun with
    | cons hstep hca hcb hqa hqb hrest =>
      rename_i s' ev
      have hinv := reaches_inv hre
      have hre' : Reaches o s' := Reaches.step hre hstep
      obtain ⟨hbs', hnext⟩ :=
        fifo_step hstep hca hcb hqa hqb hinv hab hah hbs
      rcases hnext with hah' | ha'
      · obtain ⟨u, v, t, hsplit, hu, hv, hat, hbt⟩ :=
          ih s' hre' hrest hah' hbs'
        exact ⟨st :: u, v, t, by rw [hsplit]; rfl,
          OkRun.cons hstep hca hcb hqa hqb hu, hv, hat, hbt⟩
      · exact ⟨[st], rest, s', rfl,
          OkRun.cons hstep hca hcb hqa hqb (OkRun.nil s'), hrest, ha', hbs'⟩

/-- Jobs 2 and 3 admitted in that order behind running job 1; as jobs
settle, 2 is promoted strictly before 3. -/
def c3Opts : QueueOptions := ⟨1, 100, 100, 5⟩

def c3State : QueueState :=
  (push c3Opts (push c3Opts (push c3Opts initState 1).1 2).1 3).1

def c3Steps : List QStep :=
  [QStep.processSettle 1 (Except.ok 0), QStep.processSettle 2 (Except.ok 0)]

def c3Mid : QueueState := (processSettle c3Opts c3State 1 (Except.ok 0)).1

def c3Final : QueueState := (processSettle c3Opts c3Mid 2 (Except.ok 0)).1

theorem fifo_promotion_order_witness :
    ∃ u v t, c3Steps = u ++ v ∧ OkRun c3Opts 2 3 c3State u t
      ∧ OkRun c3Opts 2 3 t v c3Final ∧ 2 ∈ t.started ∧ 3 ∉ t.started :=
  fifo_promotion_order c3Opts 2 3 c3State c3Steps c3Final
    (Reaches.step (Reaches.step (Reaches.step Reaches.init
      ((by decide : stepFn c3Opts initState (QStep.push 1)
        = some ((push c3Opts initState 1).1,
                (push c3Opts initState 1).2.1))))
      ((by decide : stepFn c3Opts (push c3Opts initState 1).1 (QStep.push 2)
        = some ((push c3Opts (push c3Opts initState 1).1 2).1,
                (push c3Opts (push c3Opts initState 1).1 2).2.1))))
      ((by decide : stepFn c3Opts
          (push c3Opts (push c3Opts initState 1).1 2).1 (QStep.push 3)
        = some (c3State,
            (push c3Opts (push c3Opts (push c3Opts initState 1).1 2).1
              3).2.1))))
    (OkRun.cons
      ((by decide : stepFn c3Opts c3State (QStep.processSettle 1 (Except.ok 0))
        = some (c3Mid, (processSettle c3Opts c3State 1 (Except.ok 0)).2)))
      (fun h => QStep.noConfusion h) (fun h => QStep.noConfusion h)
      (fun h => QStep.noConfusion h) (fun h => QStep.noConfusion h)
      (OkRun.cons
        ((by decide : stepFn c3Opts c3Mid (QStep.processSettle 2 (Except.ok 0))
          = some (c3Final, (processSettle c3Opts c3Mid 2 (Except.ok 0)).2)))
        (fun h => QStep.noConfusion h) (fun h => QStep.noConfusion h)
        (fun h => QStep.noConfusion h) (fun h => QStep.noConfusion h)
        (OkRun.nil c3Final)))
    (by decide) ⟨[], [], [], by decide⟩ (by decide) (by decide)

/-! ## Renderer (lib/renderer.js) -/

/-- The components of `url.parse(url)` that `_isAllowed` reads.  Node's
legacy parser yields `protocol = null` for scheme-less inputs and
`host = null` for URLs without an authority component (for example
`data:` URLs); `auth` is the user-info component. -/
structure ParsedUrl where
  protocol : Option String
  auth : Option String
  host : Option String
  deriving DecidableEq, Repr

/-- A JavaScript runtime error escaping `_isAllowed`. -/
inductive JsRuntimeError
  | typeError
  deriving DecidableEq, Repr

/-- The anchored regex `(^https?:$|^data:$)` applied to the protocol. -/
def protocolRegexOk (p : String) : Bool :=
  p = "http:" || p = "https:" || p = "data:"

/-- `Renderer._isAllowed`, with the configured blacklist abstracted to
the predicate `deny` (the regex test on the parsed host).  The source
evaluates `parsedUrl.protocol.match(...) && !parsedUrl.auth &&
!parsedUrl.host.match(this._hostBlacklist)` left to right with JavaScript
short-circuiting; calling `.match` on a `null` protocol or host throws a
`TypeError`. -/
def isAllowed (deny : String → Bool) (u : ParsedUrl) :
    Except JsRuntimeError Bool :=
  match u.protocol with
  | none => Except.error JsRuntimeError.typeError
  | some p =>
    if protocolRegexOk p then
      if u.auth.isSome then Except.ok false
      else
        match u.host with
        | none => Except.error JsRuntimeError.typeError
        | some h => Except.ok (!deny h)
    else Except.ok false

/-- Errors the modelled fragments of `articleToPdf` can raise. -/
inductive RendererFailure
  | forbiddenHost
  | typeError
  | malformedResponse
  | navigation (status : Nat) (statusText : String)
  deriving DecidableEq, Repr

/-- The guard at the top of `articleToPdf` (renderer.js): throw
`ForbiddenError` when `_isAllowed` returns a falsy value; a `TypeError`
thrown inside `_isAllowed` propagates instead. -/
def articleToPdfGate (deny : String → Bool) (u : ParsedUrl) :
    Except RendererFailure Unit :=
  match isAllowed deny u with
  | Except.error _ => Except.error RendererFailure.typeError
  | Except.ok b =>
    if b then Except.ok () else Except.error RendererFailure.forbiddenHost

/-- Outcome of the per-request interception callback. -/
inductive InterceptAction
  | continueRequest
  | abortAccessDenied
  deriving DecidableEq, Repr

/-- The `page.on('request', ...)` callback installed by `articleToPdf`:
apply `_isAllowed` to the sub-resource URL and continue or abort with
`'accessdenied'`; a `TypeError` from `_isAllowed` escapes the callback. -/
def onRequestIntercepted (deny : String → Bool) (u : ParsedUrl) :
    Except JsRuntimeError InterceptAction :=
  match isAllowed deny u with
  | Except.error e => Except.error e
  | Except.ok true => Except.ok InterceptAction.continueRequest
  | Except.ok false => Except.ok InterceptAction.abortAccessDenied

/-- Modelled from the spec (§4.7): the allow-rule as the specification
words it, for comparison with the source's `_isAllowed`: scheme in
{http, https, data}, no user-info component, and the host does not match
the configured deny regex. -/
def specAllowRule (deny : String → Bool) (u : ParsedUrl) : Bool :=
  (match u.protocol with
   | some p => protocolRegexOk p
   | none => false)
  && u.auth.isNone
  && (match u.host with
      | some h => !deny h
      | none => true)

/-- A navigation response as puppeteer's `Response` exposes it. -/
structure NavResponse where
  status : Nat
  statusText : String
  deriving DecidableEq, Repr

/-- Puppeteer's `Response.ok()`: status 0 (replies without a status, for
example served from cache) or a status in the 200–299 range. -/
def responseOk (r : NavResponse) : Bool :=
  r.status == 0 || (decide (200 ≤ r.status) && decide (r.status ≤ 299))

/-- The navigation-completion handler of `articleToPdf` (renderer.js):
an absent response raises `PuppeteerMalformedResponseError`, a response
failing `response.ok()` raises `NavigationError(status, statusText)`,
and otherwise the render proceeds to `page.pdf`. -/
def handleNavigationResponse (resp : Option NavResponse) :
    Except RendererFailure Unit :=
  match resp with
  | none => Except.error RendererFailure.malformedResponse
  | some r =>
    if !responseOk r then
      Except.error (RendererFailure.navigation r.status r.statusText)
    else Except.ok ()

/-! ## Glue layer: error mapping (routes, `handleError`) -/

/-- Effects `handleError` has on the express response. -/
structure ErrorResponse where
  status : Option Nat
  retryAfter : Option Nat
  endedWithoutBody : Bool
  deriving DecidableEq, Repr

/-- JavaScript `a || b` on the numeric configuration value
`app.conf.render_queue_timeout` (0 and undefined are falsy). -/
def jsNumOr (v : Option Nat) (d : Nat) : Nat :=
  match v with
  | none => d
  | some 0 => d
  | some n => n

/-- The glue layer's `handleError`, embedded over the error taxonomy:
`NavigationError` maps to 404 or 500 by its code, `ProcessingCancelled`
ends the response without a body, `QueueFull` and `QueueTimeout` map to
503 with `Retry-After: render_queue_timeout || 60`, `JobTimeout` maps to
503, and anything else to 500. -/
def handleError (renderQueueTimeout : Option Nat) (e : ErrKind) :
    ErrorResponse :=
  match e with
  | ErrKind.navigationError code =>
    if code = 404 then ⟨some 404, none, false⟩ else ⟨some 500, none, false⟩
  | ErrKind.processingCancelled => ⟨none, none, true⟩
  | ErrKind.queueFull => ⟨some 503, some (jsNumOr renderQueueTimeout 60), false⟩
  | ErrKind.queueTimeout => ⟨some 503, some (jsNumOr renderQueueTimeout 60), false⟩
  | ErrKind.jobTimeout => ⟨some 503, none, false⟩
  | _ => ⟨some 500, none, false⟩

/-! ## C1: admission control -/

/-- C1: when the number of waiting plus running jobs has reached
`maxTaskCount` at the moment `push` is called, `push` synchronously
emits `queue.full` and fails the returned future with `QueueFull`, and
the state — the waiting list, the in-progress list and the timer map —
is unchanged; the item is not registered. -/
theorem push_full_rejects (o : QueueOptions) (s : QueueState) (j : Nat)
    (h : o.maxTaskCount ≤ countJobsInQueue s) :
    push o s j = (s, [Event.queueFull j], PushOutcome.rejected ErrKind.queueFull) := by
  simp [push, isQueueFull, h]

/-- A queue with `maxTaskCount = 2` and two outstanding submissions (one
running, one waiting): the third submission fails synchronously with
`QueueFull`. -/
def c1Opts : QueueOptions := ⟨1, 100, 200, 2⟩

def c1State : QueueState := (push c1Opts (push c1Opts initState 1).1 2).1

theorem push_full_rejects_witness :
    c1Opts.maxTaskCount ≤ countJobsInQueue c1State
    ∧ push c1Opts c1State 3
        = (c1State, [Event.queueFull 3], PushOutcome.rejected ErrKind.queueFull) :=
  ⟨by decide, push_full_rejects c1Opts c1State 3 (by decide)⟩

/-! ## C7: the ForbiddenHost gate -/

/-- A deny regex matching nothing (`host_blacklist` unset builds
`(?!)`). -/
def denyNothing : String → Bool := fun _ => false

/-- A deny regex matching exactly the host `bad.example`. -/
def denyBad : String → Bool := fun h => h = "bad.example"

/-- C7 counterexample: on a URL whose parsed form has no protocol (for
example `example.com/page`), the allow-rule fails, yet `articleToPdf`
raises a `TypeError` from `_isAllowed`, not `ForbiddenHost`; the claimed
equivalence is false at this input. -/
theorem push_forbidden_iff_counterexample :
    ¬ (articleToPdfGate denyNothing ⟨none, none, none⟩
          = Except.error RendererFailure.forbiddenHost
        ↔ specAllowRule denyNothing ⟨none, none, none⟩ = false) := by
  intro h
  have h2 := h.mpr (by rfl)
  simp [articleToPdfGate, isAllowed] at h2

/-- C7 (amended): for URLs whose parsed form has a protocol component,
and a host component whenever the scheme and user-info checks pass,
`articleToPdf` raises `ForbiddenHost` exactly when the allow-rule
(scheme in {http, https, data}, no user-info, host not matching the deny
regex) fails; on the remaining inputs `_isAllowed` throws a `TypeError`
instead (C10). -/
theorem articleToPdf_forbidden_iff (deny : String → Bool) (u : ParsedUrl)
    (hp : u.protocol.isSome)
    (hh : ∀ p, u.protocol = some p → protocolRegexOk p = true →
      u.auth = none → u.host.isSome) :
    articleToPdfGate deny u = Except.error RendererFailure.forbiddenHost
      ↔ specAllowRule deny u = false := by
  obtain ⟨proto, auth, host⟩ := u
  obtain ⟨p, rfl⟩ := Option.isSome_iff_exists.mp hp
  by_cases hreg : protocolRegexOk p = true
  · cases auth with
    | some a => simp [articleToPdfGate, isAllowed, specAllowRule, hreg]
    | none =>
      have := hh p rfl hreg rfl
      obtain ⟨h0, rfl⟩ := Option.isSome_iff_exists.mp this
      by_cases hd : deny h0 = true <;>
        simp [articleToPdfGate, isAllowed, specAllowRule, hreg, hd]
  · simp [articleToPdfGate, isAllowed, specAllowRule, hreg]

theorem articleToPdf_forbidden_iff_witness :
    ((⟨some "http:", none, some "bad.example"⟩ : ParsedUrl).protocol.isSome = true)
    ∧ (articleToPdfGate denyBad ⟨some "http:", none, some "bad.example"⟩
          = Except.error RendererFailure.forbiddenHost
        ↔ specAllowRule denyBad ⟨some "http:", none, some "bad.example"⟩ = false) :=
  ⟨rfl, articleToPdf_forbidden_iff denyBad ⟨some "http:", none, some "bad.example"⟩
    rfl (fun _ _ _ _ => rfl)⟩

/-! ## C8: navigation-response classification -/

/-- C8 counterexample: a navigation response with status 304 — below
400 — makes `articleToPdf` fail with `NavigationError(304, ...)` where
the claim says the render proceeds; the code raises on `!response.ok()`,
not on `status ≥ 400`. -/
theorem navigation_below_400_counterexample :
    handleNavigationResponse (some ⟨304, "Not Modified"⟩)
      = Except.error (RendererFailure.navigation 304 "Not Modified")
    ∧ 304 < 400 := ⟨rfl, by decide⟩

/-- C8 (amended): when navigation completes, `articleToPdf` fails with
`MalformedRendererResponse` exactly when the response object is absent,
and fails with `NavigationError(status, statusText)` exactly when the
response fails puppeteer's `ok()` test (status outside 200–299 and not
0); it proceeds to generate the PDF exactly when `ok()` holds. -/
theorem navigation_response_classification (resp : Option NavResponse) :
    (handleNavigationResponse resp
        = Except.error RendererFailure.malformedResponse ↔ resp = none)
    ∧ (∀ r, resp = some r →
        ((handleNavigationResponse resp
            = Except.error (RendererFailure.navigation r.status r.statusText)
          ↔ responseOk r = false)
        ∧ (handleNavigationResponse resp = Except.ok () ↔ responseOk r = true))) := by
  cases resp with
  | none => simp [handleNavigationResponse]
  | some r =>
    refine ⟨by simp [handleNavigationResponse]; split <;> simp, ?_⟩
    intro r' h
    injection h with h
    subst h
    by_cases hok : responseOk r = true <;>
      simp [handleNavigationResponse, hok]

theorem navigation_response_classification_witness :
    (handleNavigationResponse (some ⟨404, "Not Found"⟩)
        = Except.error (RendererFailure.navigation 404 "Not Found")
      ↔ responseOk ⟨404, "Not Found"⟩ = false)
    ∧ (handleNavigationResponse (some ⟨200, "OK"⟩) = Except.ok ()
      ↔ responseOk ⟨200, "OK"⟩ = true) :=
  ⟨((navigation_response_classification (some ⟨404, "Not Found"⟩)).2
      ⟨404, "Not Found"⟩ rfl).1,
   ((navigation_response_classification (some ⟨200, "OK"⟩)).2
      ⟨200, "OK"⟩ rfl).2⟩

/-! ## C9: HTTP error mapping -/

/-- C9 counterexample: `JobTimeout` produces a 503 response but, unlike
`QueueFull` and `QueueTimeout`, its branch in `handleError` does not set
the `Retry-After` header. -/
theorem handleError_jobTimeout_counterexample :
    (handleError (some 30) ErrKind.jobTimeout).status = some 503
    ∧ (handleError (some 30) ErrKind.jobTimeout).retryAfter = none :=
  ⟨rfl, rfl⟩

/-- C9 (amended): `QueueFull` and `QueueTimeout` produce 503 with
`Retry-After: render_queue_timeout || 60`; `JobTimeout` produces 503
without a `Retry-After` header; `NavigationError` with code 404 produces
404 and any other code 500; `ProcessingCancelled` ends the response
without a body; every other kind produces 500. -/
theorem handleError_mapping (conf : Option Nat) :
    handleError conf ErrKind.queueFull = ⟨some 503, some (jsNumOr conf 60), false⟩
    ∧ handleError conf ErrKind.queueTimeout
        = ⟨some 503, some (jsNumOr conf 60), false⟩
    ∧ handleError conf ErrKind.jobTimeout = ⟨some 503, none, false⟩
    ∧ handleError conf (ErrKind.navigationError 404) = ⟨some 404, none, false⟩
    ∧ (∀ c, c ≠ 404 →
        handleError conf (ErrKind.navigationError c) = ⟨some 500, none, false⟩)
    ∧ handleError conf ErrKind.processingCancelled = ⟨none, none, true⟩
    ∧ handleError conf ErrKind.forbidden = ⟨some 500, none, false⟩
    ∧ handleError conf ErrKind.puppeteerMalformedResponse
        = ⟨some 500, none, false⟩
    ∧ handleError conf ErrKind.other = ⟨some 500, none, false⟩ := by
  refine ⟨rfl, rfl, rfl, rfl, ?_, rfl, rfl, rfl, rfl⟩
  intro c hc
  simp [handleError, hc]

theorem handleError_mapping_witness :
    handleError (some 30) ErrKind.queueFull = ⟨some 503, some 30, false⟩
    ∧ handleError (some 30) (ErrKind.navigationError 500)
        = ⟨some 500, none, false⟩ :=
  ⟨(handleError_mapping (some 30)).1,
   (handleError_mapping (some 30)).2.2.2.2.1 500 (by decide)⟩

/-! ## C10: non-totality of the allow-check -/

/-- C10: `_isAllowed` is not total over URL strings: on a parsed form
with no protocol it dereferences `null.match` and throws a `TypeError`;
on a `data:` URL (allowed scheme, no user-info, `host = null`) it throws
a `TypeError` from `parsedUrl.host.match`; and since the request
interceptor applies the same check to every sub-resource, such a
sub-resource URL makes the interceptor throw instead of continuing or
aborting the request. -/
theorem isAllowed_not_total :
    (∀ deny : String → Bool, ∀ u : ParsedUrl, u.protocol = none →
      isAllowed deny u = Except.error JsRuntimeError.typeError
      ∧ onRequestIntercepted deny u = Except.error JsRuntimeError.typeError)
    ∧ (∀ deny : String → Bool, ∀ u : ParsedUrl,
      u.protocol = some "data:" → u.auth = none → u.host = none →
      isAllowed deny u = Except.error JsRuntimeError.typeError
      ∧ onRequestIntercepted deny u = Except.error JsRuntimeError.typeError) := by
  constructor
  · rintro deny ⟨proto, auth, host⟩ h
    subst h
    exact ⟨rfl, rfl⟩
  · rintro deny ⟨proto, auth, host⟩ hp ha hh
    subst hp; subst ha; subst hh
    exact ⟨rfl, rfl⟩

theorem isAllowed_not_total_witness :
    (isAllowed denyNothing ⟨none, none, none⟩
        = Except.error JsRuntimeError.typeError
      ∧ onRequestIntercepted denyNothing ⟨none, none, none⟩
        = Except.error JsRuntimeError.typeError)
    ∧ (isAllowed denyNothing ⟨some "data:", none, none⟩
        = Except.error JsRuntimeError.typeError
      ∧ onRequestIntercepted denyNothing ⟨some "data:", none, none⟩
        = Except.error JsRuntimeError.typeError) :=
  ⟨isAllowed_not_total.1 denyNothing ⟨none, none, none⟩ rfl,
   isAllowed_not_total.2 denyNothing ⟨some "data:", none, none⟩ rfl rfl rfl⟩

end Proton
